import Mathlib

/-!
# go-dspt: the UDP liveness-probing subsystem (`echo/server.go`, `echo/client.go`)

A shallow embedding of the echo server: the registry of clients, the listener loop,
the retry procedure `pingClient`, the cycle `pingAllClients` and the report
`PrintClientStatus`; of the loop of the peer endpoint; and, in the namespaces
`Observer`, `Chain` and `Flyweight`, of the news agency of
`behavioral-patterns/observer.go`, the handlers of
`behavioral-patterns/chain-of-responsibility.go` and the doll factory of
`structural-patterns/flyweight.go`.

* `time.Time` is a natural number of clock ticks; the zero value of `time.Time`
  (an unset `LastSeen`) is `0`, and each `time.Now()` is an explicit argument.
* `*Client` values are indices into a heap of `Client` objects, so that two
  holders of the same pointer see each other's writes and a pointer that was
  replaced in the map keeps addressing the old object.
* `map[string]*Client` is an association list with unique keys.
* The socket is the environment: what `ReadFromUDP` returns and whether
  `WriteToUDP` fails are inputs, the datagrams written are recorded in a trace.
* The mutexes only make the modelled steps atomic; `log.Printf` lines are omitted.
* Goroutines are interleaved at the level of these steps: a run is a sequence of
  actions, and the calls that other goroutines make during a step sequence are an
  explicit argument of it.
-/

namespace Echo

/-! ## Data model -/

/-- The type `net.UDPAddr`. -/
structure UDPAddr where
  IP : List Nat
  Port : Nat
  Zone : String
deriving DecidableEq

/-- The functions of package `net` that the server calls on addresses:
`net.ResolveUDPAddr("udp", ·)` and `(*UDPAddr).String`. -/
structure Net where
  ResolveUDPAddr : String → Except String UDPAddr
  addrString : UDPAddr → String

deriving instance DecidableEq for Except

/-- The struct `Client` (without its mutex). `LastSeen` is a clock reading, `0` for
the zero value of `time.Time`. -/
structure Client where
  Address : UDPAddr
  LastSeen : Nat
  Active : Bool
deriving DecidableEq

/-- The Go statement `c.Active = active; if active { c.LastSeen = time.Now() }`. -/
def Client.setActive (c : Client) (active : Bool) (now : Nat) : Client :=
  let c1 := { c with Active := active }
  if active then { c1 with LastSeen := now } else c1

/-- The method `isActive`. -/
def Client.isActive (c : Client) : Bool :=
  c.Active

/-- Lookup `m[k]` in a `map[string]*Client`. -/
def mapGet : List (String × Nat) → String → Option Nat
  | [], _ => none
  | (k1, v) :: rest, k => if k1 = k then some v else mapGet rest k

/-- Assignment `m[k] = v` in a `map[string]*Client`. -/
def mapSet : List (String × Nat) → String → Nat → List (String × Nat)
  | [], k, v => [(k, v)]
  | (k1, v1) :: rest, k, v =>
    if k1 = k then (k, v) :: rest else (k1, v1) :: mapSet rest k v

/-- The struct `Server`: the `clients` map, together with the `Client` objects
allocated so far (`heap`). A `*Client` is the index of its object in `heap`. -/
structure Server where
  clients : List (String × Nat)
  heap : List Client
deriving DecidableEq

/-- The server that `NewServer` returns: `clients: make(map[string]*Client)`. -/
def NewServer : Server :=
  { clients := [], heap := [] }

/-- Allocation `&Client{...}`: the new object is placed at the end of the heap. -/
def Server.alloc (s : Server) (c : Client) : Server × Nat :=
  ({ s with heap := s.heap ++ [c] }, s.heap.length)

/-- Dereference of a `*Client`; `none` for a pointer that addresses nothing. -/
def Server.deref (s : Server) (p : Nat) : Option Client :=
  s.heap[p]?

/-- The call `client.setActive(active)` through a pointer. -/
def Server.setActive (s : Server) (p : Nat) (active : Bool) (now : Nat) : Option Server :=
  match s.deref p with
  | none => none
  | some c => some { s with heap := s.heap.set p (c.setActive active now) }

/-- The registry entry of key `k`: the object that `s.clients[k]` points to. -/
def Server.peer (s : Server) (k : String) : Option Client :=
  match mapGet s.clients k with
  | none => none
  | some p => s.deref p

/-! ## `RegisterClient` -/

/-- The method `RegisterClient`: the resolved address is stored in a fresh `Client`
with `Active: false` (and the zero `LastSeen`), assigned to `s.clients[address]`. -/
def RegisterClient (net : Net) (s : Server) (address : String) : Except String Server :=
  match net.ResolveUDPAddr address with
  | .error err => .error err
  | .ok udpAddr =>
    let (s1, p) := s.alloc { Address := udpAddr, LastSeen := 0, Active := false }
    .ok { s1 with clients := mapSet s1.clients address p }

/-! ## `listenForResponses` -/

/-- What one `s.conn.ReadFromUDP(buffer)` returns: an error, or a datagram with its
payload and source address. -/
inductive ReadResult where
  | error (err : String)
  | datagram (payload : String) (addr : UDPAddr)
deriving DecidableEq

/-- The size of the receive buffer, `make([]byte, 1024)`. -/
def bufferSize : Nat := 1024

/-- The message `string(buffer[:n])`: the payload, cut to the buffer. -/
def readMessage (payload : String) : String :=
  String.mk (payload.data.take bufferSize)

/-- One iteration of the loop of `listenForResponses`, for the read result `r`
at clock reading `now`. -/
def listenStep (net : Net) (s : Server) (r : ReadResult) (now : Nat) : Option Server :=
  match r with
  | .error _ => some s
  | .datagram payload addr =>
    let message := readMessage payload
    let clientKey := net.addrString addr
    if message = "ECHO-RESPONSE" then
      match mapGet s.clients clientKey with
      | some client => s.setActive client true now
      | none =>
        let (s1, p) := s.alloc { Address := addr, LastSeen := now, Active := true }
        some { s1 with clients := mapSet s1.clients clientKey p }
    else some s

/-- The loop of `listenForResponses` over the reads `rs`, each with its clock reading. -/
def listenForResponses (net : Net) (s : Server) : List (ReadResult × Nat) → Option Server
  | [] => some s
  | (r, now) :: rs =>
    match listenStep net s r now with
    | none => none
    | some s1 => listenForResponses net s1 rs

/-! ## `pingClient` -/

/-- What `pingClient` meets on the socket and in the other goroutine: whether the
`WriteToUDP` of an attempt returns an error, and the iterations the listener loop
runs while the attempt waits in its `select`. -/
structure PingEnv where
  sendFails : Nat → Bool
  window : Nat → List (ReadResult × Nat)

/-- The observable actions of `pingClient`. -/
inductive Event where
  | write (payload : String) (dest : UDPAddr)
  | received
  | timeout (d : Nat)
  | setActive (client : Nat) (active : Bool)
deriving DecidableEq

/-- The duration `time.Second`, in nanoseconds. -/
def second : Nat := 1000000000

/-- The duration `3 * time.Second` of `time.After` in the `select`. -/
def attemptTimeout : Nat := 3 * second

/-- The state of one run of `pingClient`: the server, the buffer of the local
channel `received` (`make(chan bool, 1)`), and the actions so far. -/
structure PingState where
  server : Server
  received : List Bool
  trace : List Event
deriving DecidableEq

/-- The values of `attempt` in `for attempt := 1; attempt <= 3; attempt++`. -/
def attempts : List Nat := List.range' 1 3

/-- The body of the loop of `pingClient` for the remaining values of `attempt`;
`none` when `client` addresses no object. -/
def pingAttempts (net : Net) (env : PingEnv) (client : Nat) :
    List Nat → PingState → Option PingState
  | [], st => some st
  | attempt :: rest, st =>
    match st.server.deref client with
    | none => none
    | some c =>
      let st1 := { st with trace := st.trace ++ [Event.write "ECHO-REQUEST" c.Address] }
      if env.sendFails attempt then
        match st1.server.setActive client false 0 with
        | none => none
        | some s1 =>
          some { st1 with server := s1, trace := st1.trace ++ [Event.setActive client false] }
      else
        match listenForResponses net st1.server (env.window attempt) with
        | none => none
        | some s2 =>
          match st1.received with
          | _ :: more =>
            some { server := s2, received := more, trace := st1.trace ++ [Event.received] }
          | [] =>
            let st2 : PingState :=
              { server := s2, received := [], trace := st1.trace ++ [Event.timeout attemptTimeout] }
            if attempt = 3 then
              match st2.server.setActive client false 0 with
              | none => none
              | some s3 =>
                pingAttempts net env client rest
                  { st2 with server := s3, trace := st2.trace ++ [Event.setActive client false] }
            else pingAttempts net env client rest st2

/-- The method `pingClient`: `received` starts empty and nothing is passed a
reference to it. -/
def pingClient (net : Net) (env : PingEnv) (s : Server) (client : Nat) : Option PingState :=
  pingAttempts net env client attempts { server := s, received := [], trace := [] }

/-- The number of `WriteToUDP` calls in a trace. -/
def sendCalls : List Event → Nat
  | [] => 0
  | Event.write _ _ :: es => sendCalls es + 1
  | _ :: es => sendCalls es

/-- The time spent in `select` statements that ended by `time.After`. -/
def waited : List Event → Nat
  | [] => 0
  | Event.timeout d :: es => d + waited es
  | _ :: es => waited es

/-! ## Well-formed servers -/

/-- The pointers of the map address allocated objects, and no two keys share one. -/
def Server.WF (s : Server) : Prop :=
  (∀ k p, mapGet s.clients k = some p → p < s.heap.length) ∧
  (∀ k1 k2 p, mapGet s.clients k1 = some p → mapGet s.clients k2 = some p → k1 = k2)

/-! ## A concrete network for the examples -/

/-- The address `127.0.0.1:port`. -/
def loopback (port : Nat) : UDPAddr :=
  { IP := [127, 0, 0, 1], Port := port, Zone := "" }

/-- A network in which the two addresses registered by `main` (and `localhost:8054`)
resolve. -/
def demoNet : Net where
  ResolveUDPAddr := fun a =>
    if a = "127.0.0.1:8054" then .ok (loopback 8054)
    else if a = "127.0.0.1:8055" then .ok (loopback 8055)
    else if a = "localhost:8054" then .ok (loopback 8054)
    else .error "unresolvable"
  addrString := fun a =>
    if a = loopback 8054 then "127.0.0.1:8054"
    else if a = loopback 8055 then "127.0.0.1:8055"
    else "0.0.0.0:0"

/-- The server after the first registration of `main`. -/
def firstServer : Server :=
  { clients := [("127.0.0.1:8054", 0)],
    heap := [{ Address := loopback 8054, LastSeen := 0, Active := false }] }

/-- The server after `main` has registered its two clients. -/
def demoServer : Server :=
  { clients := [("127.0.0.1:8054", 0), ("127.0.0.1:8055", 1)],
    heap := [{ Address := loopback 8054, LastSeen := 0, Active := false },
             { Address := loopback 8055, LastSeen := 0, Active := false }] }

/-- The server `demoServer` after the first client answered at time `100`. -/
def liveServer : Server :=
  { clients := [("127.0.0.1:8054", 0), ("127.0.0.1:8055", 1)],
    heap := [{ Address := loopback 8054, LastSeen := 100, Active := true },
             { Address := loopback 8055, LastSeen := 0, Active := false }] }

/-- An environment in which no send fails and the peer `127.0.0.1:8054` answers
during every attempt, at times `10`, `20` and `30`. -/
def replyEnv : PingEnv where
  sendFails := fun _ => false
  window := fun attempt => [(ReadResult.datagram "ECHO-RESPONSE" (loopback 8054), 10 * attempt)]

/-- An environment in which no send fails and nothing is received. -/
def silentEnv : PingEnv where
  sendFails := fun _ => false
  window := fun _ => []

/-- An environment in which no send fails and, during every attempt, the other peer
`127.0.0.1:8055` answers. -/
def bystanderEnv : PingEnv where
  sendFails := fun _ => false
  window := fun attempt => [(ReadResult.datagram "ECHO-RESPONSE" (loopback 8055), 10 * attempt)]

/-- An environment in which the send of attempt `k` fails and nothing is received. -/
def failEnv (k : Nat) : PingEnv where
  sendFails := fun attempt => attempt = k
  window := fun _ => []

/-! ## Sanity checks of the embedding -/

example : RegisterClient demoNet NewServer "127.0.0.1:8054" = .ok firstServer := by
  decide

example : listenStep demoNet demoServer (.datagram "ECHO-RESPONSE" (loopback 8054)) 100 =
    some liveServer := by
  decide

example : (pingClient demoNet silentEnv demoServer 0).map PingState.trace =
    some [Event.write "ECHO-REQUEST" (loopback 8054), Event.timeout attemptTimeout,
          Event.write "ECHO-REQUEST" (loopback 8054), Event.timeout attemptTimeout,
          Event.write "ECHO-REQUEST" (loopback 8054), Event.timeout attemptTimeout,
          Event.setActive 0 false] := by
  decide

/-! ## Runs of the server -/

/-- The steps of the goroutines that touch the registry: a call of `RegisterClient`,
one iteration of the listener loop at a clock reading, and the call
`client.setActive(false)` of a `pingClient` that holds the pointer `client`. -/
inductive Action where
  | register (address : String)
  | listen (r : ReadResult) (now : Nat)
  | markInactive (client : Nat)
deriving DecidableEq

/-- The server after an action. A `RegisterClient` that returns an error leaves the
server as it was. -/
def Server.act (net : Net) (s : Server) : Action → Option Server
  | .register address =>
    match RegisterClient net s address with
    | .ok s1 => some s1
    | .error _ => some s
  | .listen r now => listenStep net s r now
  | .markInactive client => s.setActive client false 0

/-- The server after a sequence of actions. -/
def Server.acts (net : Net) : Server → List Action → Option Server
  | s, [] => some s
  | s, a :: rest =>
    match s.act net a with
    | none => none
    | some s1 => Server.acts net s1 rest

/-- The clock reading at an action: the one of the listener step, else the last one. -/
def Action.clock (last : Nat) : Action → Nat
  | .listen _ now => now
  | _ => last

/-- Whether a registry entry is present and active. -/
def activeEntry : Option Client → Bool
  | some c => c.Active
  | none => false

/-- The server together with the last clock reading and, for every key, the clock
reading of the most recent step that took its entry from not active to active. -/
structure Sys where
  server : Server
  clock : Nat
  activatedAt : String → Option Nat

/-- The start: the server of `NewServer`, no entry was ever active. -/
def Sys.init : Sys :=
  { server := NewServer, clock := 0, activatedAt := fun _ => none }

/-- One action on the system; `activatedAt` records the keys whose entry is active
after the action and was not active before it. -/
def Sys.step (net : Net) (σ : Sys) (a : Action) : Option Sys :=
  match σ.server.act net a with
  | none => none
  | some s1 =>
    some { server := s1, clock := a.clock σ.clock,
           activatedAt := fun k =>
             if activeEntry (s1.peer k) && !activeEntry (σ.server.peer k)
             then some (a.clock σ.clock) else σ.activatedAt k }

/-- A sequence of actions on the system. -/
def Sys.run (net : Net) : Sys → List Action → Option Sys
  | σ, [] => some σ
  | σ, a :: rest =>
    match σ.step net a with
    | none => none
    | some σ1 => Sys.run net σ1 rest

/-- The clock readings of the listener steps never decrease, starting from `last`,
and none is the zero time. -/
def clockMonotone : Nat → List Action → Bool
  | _, [] => true
  | last, .listen _ now :: rest => decide (last ≤ now) && decide (0 < now) && clockMonotone now rest
  | last, _ :: rest => clockMonotone last rest

/-- The clock readings of the listener steps strictly increase, starting above `last`. -/
def clockStrict : Nat → List Action → Bool
  | _, [] => true
  | last, .listen _ now :: rest => decide (last < now) && clockStrict now rest
  | last, _ :: rest => clockStrict last rest

/-- Whether an action is a call of `RegisterClient`. -/
def Action.isRegister : Action → Bool
  | .register _ => true
  | _ => false

/-- The actions of one run of `pingClient` on the registry: the listener iterations
of the waits it goes through, and its `setActive(false)`. -/
def pingActions (env : PingEnv) (client : Nat) : List Action :=
  let listens := fun attempt => (env.window attempt).map (fun e => Action.listen e.1 e.2)
  if env.sendFails 1 then [Action.markInactive client]
  else listens 1 ++
    (if env.sendFails 2 then [Action.markInactive client]
     else listens 2 ++
       (if env.sendFails 3 then [Action.markInactive client]
        else listens 3 ++ [Action.markInactive client]))

/-- The run of `main` up to its two registrations, then the first client answers at
time `100` although no `pingClient` has run. -/
def unsolicitedRun : List Action :=
  [Action.register "127.0.0.1:8054", Action.register "127.0.0.1:8055",
   Action.listen (ReadResult.datagram "ECHO-RESPONSE" (loopback 8054)) 100]

/-- A cycle after `unsolicitedRun`: the first client answers at time `130`, then the
`pingClient` of the cycle sets it inactive. -/
def replyCycle : List Action :=
  [Action.listen (ReadResult.datagram "ECHO-RESPONSE" (loopback 8054)) 130,
   Action.markInactive 0]

/-- Listener steps and a `pingClient` of the second client only: an `ECHO-REQUEST`,
a read error, an answer of the second client at time `7`, its `setActive(false)`. -/
def bystanderRun : List Action :=
  [Action.listen (ReadResult.datagram "ECHO-REQUEST" (loopback 8054)) 5,
   Action.listen (ReadResult.error "timeout") 6,
   Action.listen (ReadResult.datagram "ECHO-RESPONSE" (loopback 8055)) 7,
   Action.markInactive 1]

example : (Sys.run demoNet Sys.init unsolicitedRun).map Sys.server = some liveServer := by
  decide

example : clockMonotone 0 unsolicitedRun = true := by decide

example : ((Sys.run demoNet Sys.init unsolicitedRun).bind
    (fun σ => σ.activatedAt "127.0.0.1:8054")) = some 100 := by
  decide

example : Server.acts demoNet demoServer (pingActions replyEnv 0) =
    (pingClient demoNet replyEnv demoServer 0).map PingState.server := by
  decide

/-- The invariant of the runs: the server is well formed, no recorded activation and
no `LastSeen` is later than the clock, and every active entry has a `LastSeen` that is
set and not earlier than its most recent activation. -/
def Sys.Inv (σ : Sys) : Prop :=
  σ.server.WF ∧
  (∀ k t, σ.activatedAt k = some t → t ≤ σ.clock) ∧
  (∀ q c, σ.server.deref q = some c → c.LastSeen ≤ σ.clock) ∧
  (∀ k c, σ.server.peer k = some c → c.Active = true →
    0 < c.LastSeen ∧ ∃ t, σ.activatedAt k = some t ∧ t ≤ c.LastSeen)

/-- Whether a read is an `ECHO-RESPONSE` whose source address prints as `key`. -/
def ReadResult.isReplyFrom (net : Net) (key : String) : ReadResult → Bool
  | .datagram payload addr =>
    decide (readMessage payload = "ECHO-RESPONSE") && decide (net.addrString addr = key)
  | .error _ => false

/-- Whether an action is a listener step on an `ECHO-RESPONSE` from `key`. -/
def Action.isReplyFrom (net : Net) (key : String) : Action → Bool
  | .listen r _ => r.isReplyFrom net key
  | _ => false

/-- The actions of a time in which the peer of `key`, whose object is `p`, neither
answers nor is probed: listener steps on reads that are no `ECHO-RESPONSE` from `key`,
and the `setActive(false)` of the `pingClient` of another object. -/
def Action.sparesPeer (net : Net) (key : String) (p : Nat) : Action → Bool
  | .listen r _ => !r.isReplyFrom net key
  | .markInactive q => decide (q ≠ p)
  | .register _ => false

/-- Whether an action is a call of `RegisterClient` with the string `key`. -/
def Action.reregisters (key : String) : Action → Bool
  | .register address => decide (address = key)
  | _ => false

/-- A cycle after `unsolicitedRun`: the first client answers at time `130`, and
`RegisterClient` is then called with its address once more. -/
def reregisterCycle : List Action :=
  [Action.listen (ReadResult.datagram "ECHO-RESPONSE" (loopback 8054)) 130,
   Action.register "127.0.0.1:8054"]

/-- A cycle after `unsolicitedRun`: the first client answers at time `130`, the address
`localhost:8054` is registered, and the `pingClient` of the cycle sets the first client
inactive. -/
def busyCycle : List Action :=
  [Action.listen (ReadResult.datagram "ECHO-RESPONSE" (loopback 8054)) 130,
   Action.register "localhost:8054", Action.markInactive 0]

/-! ## The peer endpoint (`echo/client.go`) -/

/-- One iteration of the loop of `main` in `client.go`, with the flag `respond`:
the datagrams it passes to `conn.WriteToUDP`, as payload and destination. A read
error is logged and skipped; the buffer is `make([]byte, 1024)` as in the server. -/
def endpointStep (respond : Bool) (r : ReadResult) : List (String × UDPAddr) :=
  match r with
  | .error _ => []
  | .datagram payload addr =>
    let message := readMessage payload
    if decide (message = "ECHO-REQUEST") && respond then [("ECHO-RESPONSE", addr)] else []

/-- The loop of `main` in `client.go` over the reads `rs`. -/
def endpointLoop (respond : Bool) : List ReadResult → List (String × UDPAddr)
  | [] => []
  | r :: rs => endpointStep respond r ++ endpointLoop respond rs

/-! ## Read errors of the listener -/

/-- The error of a read on a closed socket (`net.ErrClosed`). -/
def errClosed : String := "use of closed network connection"

/-- The number of `ReadFromUDP` calls the loop of `listenForResponses` makes when the
reads `rs` are what the socket has to return. -/
def listenIterations (net : Net) (s : Server) : List (ReadResult × Nat) → Nat
  | [] => 0
  | (r, now) :: rs =>
    match listenStep net s r now with
    | none => 1
    | some s1 => listenIterations net s1 rs + 1

/-! ## `PrintClientStatus` -/

/-- The arguments of the `fmt.Printf` of one entry: the key, the status and
`client.LastSeen`. -/
structure StatusLine where
  addr : String
  status : String
  lastSeen : Nat
deriving DecidableEq

/-- A call `client.setActive(active)` of another goroutine, at the clock reading `now`. -/
structure SetActiveCall where
  client : Nat
  active : Bool
  now : Nat
deriving DecidableEq

/-- The server after the calls of other goroutines. -/
def Server.applyCalls : Server → List SetActiveCall → Option Server
  | s, [] => some s
  | s, call :: rest =>
    match s.setActive call.client call.active call.now with
    | none => none
    | some s1 => Server.applyCalls s1 rest

/-- The `setActive` calls of other goroutines that run while `PrintClientStatus` holds
the read lock of the map: for the entry of a key, the calls before `client.isActive()`
and those between its return and the read of `client.LastSeen`, which is not under the
mutex of the client. -/
structure ReportEnv where
  before : String → List SetActiveCall
  between : String → List SetActiveCall

/-- The body of the loop of `PrintClientStatus` for the entry `addr`, `client`. -/
def reportEntry (env : ReportEnv) (s : Server) (addr : String) (client : Nat) :
    Option (StatusLine × Server) :=
  match s.applyCalls (env.before addr) with
  | none => none
  | some s1 =>
    match s1.deref client with
    | none => none
    | some c =>
      let status := if c.isActive then "active" else "inactive"
      match s1.applyCalls (env.between addr) with
      | none => none
      | some s2 =>
        match s2.deref client with
        | none => none
        | some c2 => some ({ addr := addr, status := status, lastSeen := c2.LastSeen }, s2)

/-- The loop `for addr, client := range s.clients` of `PrintClientStatus`. -/
def reportEntries (env : ReportEnv) : List (String × Nat) → Server →
    Option (List StatusLine × Server)
  | [], s => some ([], s)
  | (addr, client) :: rest, s =>
    match reportEntry env s addr client with
    | none => none
    | some (line, s1) =>
      match reportEntries env rest s1 with
      | none => none
      | some (lines, s2) => some (line :: lines, s2)

/-- The method `PrintClientStatus`: the lines printed after `Client Status:`, in the
order of the iteration, and the server afterwards. -/
def PrintClientStatus (env : ReportEnv) (s : Server) : Option (List StatusLine × Server) :=
  reportEntries env s.clients s

/-- No other goroutine runs during `PrintClientStatus`. -/
def quietEnv : ReportEnv where
  before := fun _ => []
  between := fun _ => []

/-- The listener marks the first client active at time `100` after `PrintClientStatus`
has called its `isActive()` and before it reads its `LastSeen`. -/
def tornEnv : ReportEnv where
  before := fun _ => []
  between := fun addr =>
    if addr = "127.0.0.1:8054" then [{ client := 0, active := true, now := 100 }] else []

/-! ## `pingAllClients` -/

/-- The keys of the map are distinct. -/
def Server.UniqueKeys (s : Server) : Prop :=
  (s.clients.map Prod.fst).Nodup

/-- The slice `clientList` of `pingAllClients`: one `append` for each entry of the map. -/
def clientList (s : Server) : List Nat :=
  s.clients.foldl (fun l e => l ++ [e.2]) []

/-- The method `pingAllClients`: the server afterwards and the clients for which
`go s.pingClient(client)` is started, one for each element of `clientList`. -/
def pingAllClients (s : Server) : Server × List Nat :=
  (s, (clientList s).foldl (fun started client => started ++ [client]) [])

example : endpointStep true (.datagram "ECHO-REQUEST" (loopback 8053))
    = [("ECHO-RESPONSE", loopback 8053)] := by decide

example : PrintClientStatus quietEnv liveServer =
    some ([{ addr := "127.0.0.1:8054", status := "active", lastSeen := 100 },
           { addr := "127.0.0.1:8055", status := "inactive", lastSeen := 0 }], liveServer) := by
  decide

example : pingAllClients demoServer = (demoServer, [0, 1]) := by decide

end Echo

/-! # The observer demonstration (`behavioral-patterns/observer.go`) -/

namespace Observer

/-- The struct `NewsAgency`. An `Observer` value is the pointer to its `Subscriber`,
a natural number; `observer == o` compares the pointers. -/
structure NewsAgency where
  observers : List Nat
  news : String
deriving DecidableEq

/-- The agency of `main`: `&NewsAgency{}`. -/
def NewsAgency.empty : NewsAgency :=
  { observers := [], news := "" }

/-- The method `Register`: `n.observers = append(n.observers, o)`. -/
def NewsAgency.Register (n : NewsAgency) (o : Nat) : NewsAgency :=
  { n with observers := n.observers ++ [o] }

/-- The loop of `Deregister` from index `i` on, over the remaining observers: at the
first `observer == o` the list becomes `observers[:i]` followed by `observers[i+1:]`
and the loop is left. -/
def deregisterLoop (all : List Nat) (o : Nat) : Nat → List Nat → List Nat
  | _, [] => all
  | i, observer :: rest =>
    if observer = o then all.take i ++ all.drop (i + 1)
    else deregisterLoop all o (i + 1) rest

/-- The method `Deregister`. -/
def NewsAgency.Deregister (n : NewsAgency) (o : Nat) : NewsAgency :=
  { n with observers := deregisterLoop n.observers o 0 n.observers }

/-- The method `NotifyAll`: the calls `observer.Update(n.news)`, in order. -/
def NewsAgency.NotifyAll (n : NewsAgency) : List (Nat × String) :=
  n.observers.foldl (fun calls observer => calls ++ [(observer, n.news)]) []

/-- The method `AddNews`: the agency afterwards and the calls of `Update`. -/
def NewsAgency.AddNews (n : NewsAgency) (news : String) : NewsAgency × List (Nat × String) :=
  let n1 := { n with news := news }
  (n1, n1.NotifyAll)

/-- An agency where the subscriber `1` was registered twice and the subscriber `2` once. -/
def twiceRegistered : NewsAgency :=
  ((NewsAgency.empty.Register 1).Register 2).Register 1

example : (((NewsAgency.empty.Register 1).Register 2).Deregister 1).AddNews "Golang 2.0 announced!"
    = ({ observers := [2], news := "Golang 2.0 announced!" },
       [(2, "Golang 2.0 announced!")]) := by
  decide

end Observer

/-! # The chain of responsibility (`behavioral-patterns/chain-of-responsibility.go`) -/

namespace Chain

/-- The three handler types `P1`, `P2`, `P3`. -/
inductive Kind where
  | P1
  | P2
  | P3
deriving DecidableEq

/-- The string a handler type compares the request with. -/
def Kind.tag : Kind → String
  | .P1 => "p1"
  | .P2 => "p2"
  | .P3 => "p3"

/-- The name a handler type prints. -/
def Kind.label : Kind → String
  | .P1 => "P1"
  | .P2 => "P2"
  | .P3 => "P3"

/-- A handler object: its type and the field `nextHandler` of the embedded `zHandler`,
`none` for the nil interface value. A `Handler` value is the index of its object. -/
structure HandlerObj where
  kind : Kind
  nextHandler : Option Nat
deriving DecidableEq

/-- The method `SetNextHandler`: `z.nextHandler = h`; `none` when `z` addresses nothing. -/
def SetNextHandler (heap : List HandlerObj) (z h : Nat) : Option (List HandlerObj) :=
  match heap[z]? with
  | none => none
  | some obj => some (heap.set z { obj with nextHandler := some h })

/-- How a call ends: it returns, it panics on the call of a method of a nil interface
value, or the model ran out of fuel. -/
inductive Outcome where
  | returned
  | nilDereference
  | outOfFuel
deriving DecidableEq

/-- The methods `Handle` of `P1`, `P2` and `P3`, called on the handler `p` with the
request `lv`: the lines printed and how the call ends. The fuel bounds the depth of
the calls `p.nextHandler.Handle(lv)`. -/
def Handle (heap : List HandlerObj) : Nat → Nat → String → List String × Outcome
  | 0, _, _ => ([], Outcome.outOfFuel)
  | fuel + 1, p, lv =>
    match heap[p]? with
    | none => ([], Outcome.nilDereference)
    | some obj =>
      if lv ≠ obj.kind.tag then
        match obj.nextHandler with
        | none => ([obj.kind.label ++ " cannot handle for this"], Outcome.nilDereference)
        | some next =>
          let r := Handle heap fuel next lv
          ((obj.kind.label ++ " cannot handle for this") :: r.1, r.2)
      else ([obj.kind.label ++ " handle for this"], Outcome.returned)

/-- The three handlers of `main` before the calls of `SetNextHandler`. -/
def freshHandlers : List HandlerObj :=
  [{ kind := Kind.P1, nextHandler := none }, { kind := Kind.P2, nextHandler := none },
   { kind := Kind.P3, nextHandler := none }]

/-- The chain of `main` after `p1.SetNextHandler(p2)` and `p2.SetNextHandler(p3)`:
the `nextHandler` of `p3` is never set. -/
def mainChain : List HandlerObj :=
  [{ kind := Kind.P1, nextHandler := some 1 }, { kind := Kind.P2, nextHandler := some 2 },
   { kind := Kind.P3, nextHandler := none }]

example : (SetNextHandler freshHandlers 0 1).bind (fun h => SetNextHandler h 1 2)
    = some mainChain := by decide

example : Handle mainChain 3 0 "p3" =
    (["P1 cannot handle for this", "P2 cannot handle for this", "P3 handle for this"],
     Outcome.returned) := by decide

end Chain

/-! # The flyweight factory (`structural-patterns/flyweight.go`) -/

namespace Flyweight

/-- The struct `Doll`. -/
structure Doll where
  name : String
  material : String
  productTime : String
deriving DecidableEq

/-- The struct `DollFactory`: the map `f`, together with the `Doll` objects allocated
so far. A `*Doll` is the index of its object in `heap`. -/
structure DollFactory where
  f : List (String × Nat)
  heap : List Doll
deriving DecidableEq

/-- The function `NewDollFactory`. -/
def NewDollFactory : DollFactory :=
  { f := [], heap := [] }

/-- The key `fmt.Sprintf("This Doll is %s-%s-%s ", name, meterial, productTime)`. -/
def dollKey (name meterial productTime : String) : String :=
  "This Doll is " ++ name ++ "-" ++ meterial ++ "-" ++ productTime ++ " "

/-- The method `getDoll`: the factory afterwards and the pointer returned. -/
def getDoll (fac : DollFactory) (name meterial productTime : String) : DollFactory × Nat :=
  let key := dollKey name meterial productTime
  match Echo.mapGet fac.f key with
  | some v => (fac, v)
  | none =>
    let d := fac.heap.length
    ({ f := Echo.mapSet fac.f key d,
       heap := fac.heap ++ [{ name := name, material := meterial, productTime := productTime }] },
     d)

/-- The calls of `main`: `d1`, the doll `B`, and `d3`. -/
def mainDolls : DollFactory × Nat × Nat :=
  let r1 := getDoll NewDollFactory "A" "Plastic" "2025"
  let r2 := getDoll r1.1 "B" "PlasticZZ" "2026"
  let r3 := getDoll r2.1 "A" "Plastic" "2025"
  (r3.1, r1.2, r3.2)

/-- The entries of the map point to allocated dolls, each under the key formatted from
its own fields. -/
def DollFactory.WF (fac : DollFactory) : Prop :=
  ∀ k p, Echo.mapGet fac.f k = some p →
    ∃ d, fac.heap[p]? = some d ∧ dollKey d.name d.material d.productTime = k

/-- A sequence of `getDoll` calls, each with its three arguments. -/
def getDolls (fac : DollFactory) : List (String × String × String) → DollFactory
  | [] => fac
  | (name, meterial, productTime) :: rest =>
    getDolls (getDoll fac name meterial productTime).1 rest

example : mainDolls.2.1 = mainDolls.2.2 := by decide

end Flyweight

namespace Echo


/-! ## The map and the heap -/

theorem mapGet_mapSet_self (m : List (String × Nat)) (k : String) (v : Nat) :
    mapGet (mapSet m k v) k = some v := by
  induction m with
  | nil => simp [mapSet, mapGet]
  | cons e rest ih =>
    obtain ⟨k1, v1⟩ := e
    by_cases h : k1 = k
    · simp [mapSet, mapGet, h]
    · simp [mapSet, mapGet, h, ih]

theorem mapGet_mapSet_ne (m : List (String × Nat)) (k : String) (v : Nat) (k2 : String)
    (hne : k2 ≠ k) : mapGet (mapSet m k v) k2 = mapGet m k2 := by
  have h2 : ¬ k = k2 := fun e => hne e.symm
  induction m with
  | nil => simp [mapSet, mapGet, h2]
  | cons e rest ih =>
    obtain ⟨k1, v1⟩ := e
    by_cases h : k1 = k
    · subst h
      simp [mapSet, mapGet, h2]
    · by_cases h4 : k1 = k2
      · subst h4
        simp [mapSet, mapGet, h]
      · simp [mapSet, mapGet, h, h4, ih]

theorem NewServer_WF : NewServer.WF := by
  constructor
  · intro k p h
    simp [NewServer, mapGet] at h
  · intro k1 k2 p h
    simp [NewServer, mapGet] at h

/-- Inserting a fresh object under key `k` keeps the server well formed. -/
theorem WF_insert (s : Server) (hwf : s.WF) (k : String) (c : Client) :
    Server.WF { clients := mapSet s.clients k s.heap.length, heap := s.heap ++ [c] } := by
  obtain ⟨hv, hi⟩ := hwf
  constructor
  · intro k2 p h
    show p < (s.heap ++ [c]).length
    rw [List.length_append, List.length_singleton]
    by_cases hk : k2 = k
    · subst hk
      have h1 : mapGet (mapSet s.clients k2 s.heap.length) k2 = some p := h
      rw [mapGet_mapSet_self] at h1
      have h2 : s.heap.length = p := Option.some.inj h1
      omega
    · have h1 : mapGet (mapSet s.clients k s.heap.length) k2 = some p := h
      rw [mapGet_mapSet_ne _ _ _ _ hk] at h1
      have := hv k2 p h1
      omega
  · intro k1 k2 p h1 h2
    have g1 : mapGet (mapSet s.clients k s.heap.length) k1 = some p := h1
    have g2 : mapGet (mapSet s.clients k s.heap.length) k2 = some p := h2
    by_cases hk1 : k1 = k
    · by_cases hk2 : k2 = k
      · rw [hk1, hk2]
      · subst hk1
        rw [mapGet_mapSet_self] at g1
        rw [mapGet_mapSet_ne _ _ _ _ hk2] at g2
        have h3 := hv k2 p g2
        have h4 : s.heap.length = p := Option.some.inj g1
        omega
    · by_cases hk2 : k2 = k
      · subst hk2
        rw [mapGet_mapSet_self] at g2
        rw [mapGet_mapSet_ne _ _ _ _ hk1] at g1
        have h3 := hv k1 p g1
        have h4 : s.heap.length = p := Option.some.inj g2
        omega
      · rw [mapGet_mapSet_ne _ _ _ _ hk1] at g1
        rw [mapGet_mapSet_ne _ _ _ _ hk2] at g2
        exact hi k1 k2 p g1 g2

/-- The fresh object is the entry of its key. -/
theorem peer_insert_self (s : Server) (k : String) (c : Client) :
    Server.peer { clients := mapSet s.clients k s.heap.length, heap := s.heap ++ [c] } k
      = some c := by
  simp [Server.peer, Server.deref, mapGet_mapSet_self]

/-- Inserting under key `k` changes no other entry. -/
theorem peer_insert_ne (s : Server) (hwf : s.WF) (k : String) (c : Client) (k2 : String)
    (hne : k2 ≠ k) :
    Server.peer { clients := mapSet s.clients k s.heap.length, heap := s.heap ++ [c] } k2
      = s.peer k2 := by
  simp only [Server.peer, Server.deref, mapGet_mapSet_ne _ _ _ _ hne]
  cases hg : mapGet s.clients k2 with
  | none => rfl
  | some p =>
    have hp := hwf.1 k2 p hg
    simp only
    exact List.getElem?_append_left hp

/-- The objects allocated before an insertion are unchanged by it. -/
theorem deref_insert (s : Server) (k : String) (c : Client) (p : Nat) (hp : p < s.heap.length) :
    Server.deref { clients := mapSet s.clients k s.heap.length, heap := s.heap ++ [c] } p
      = s.deref p := by
  simp only [Server.deref]
  exact List.getElem?_append_left hp

/-- A write through a pointer keeps the server well formed. -/
theorem WF_store (s : Server) (hwf : s.WF) (p : Nat) (c : Client) :
    Server.WF { clients := s.clients, heap := s.heap.set p c } := by
  obtain ⟨hv, hi⟩ := hwf
  constructor
  · intro k q h
    simp only [List.length_set]
    exact hv k q h
  · intro k1 k2 q h1 h2
    exact hi k1 k2 q h1 h2

/-- A write through the pointer of key `k` makes the written object the entry of `k`. -/
theorem peer_store_self (s : Server) (hwf : s.WF) (k : String) (p : Nat) (c : Client)
    (hk : mapGet s.clients k = some p) :
    Server.peer { clients := s.clients, heap := s.heap.set p c } k = some c := by
  have hp := hwf.1 k p hk
  simp [Server.peer, Server.deref, hk, hp]

/-- A write through the pointer of key `k` changes no other entry. -/
theorem peer_store_ne (s : Server) (hwf : s.WF) (k : String) (p : Nat) (c : Client)
    (hk : mapGet s.clients k = some p) (k2 : String) (hne : k2 ≠ k) :
    Server.peer { clients := s.clients, heap := s.heap.set p c } k2 = s.peer k2 := by
  simp only [Server.peer, Server.deref]
  cases hg : mapGet s.clients k2 with
  | none => rfl
  | some q =>
    have hq : p ≠ q := fun e => hne (hwf.2 k2 k q hg (e ▸ hk))
    simp only
    exact List.getElem?_set_ne hq

/-! ## `RegisterClient` -/

/-- The server after a successful `RegisterClient`. -/
theorem RegisterClient_ok (net : Net) (s : Server) (address : String) (udpAddr : UDPAddr)
    (hres : net.ResolveUDPAddr address = .ok udpAddr) :
    RegisterClient net s address =
      .ok { clients := mapSet s.clients address s.heap.length,
            heap := s.heap ++ [{ Address := udpAddr, LastSeen := 0, Active := false }] } := by
  simp [RegisterClient, hres, Server.alloc]

/-- An address that does not resolve is not registered: the error is returned. -/
theorem RegisterClient_error (net : Net) (s : Server) (address : String) (err : String)
    (hres : net.ResolveUDPAddr address = .error err) :
    RegisterClient net s address = .error err := by
  simp [RegisterClient, hres]

/-- `RegisterClient` keeps the server well formed. -/
theorem RegisterClient_WF (net : Net) (s s1 : Server) (hwf : s.WF) (address : String)
    (h : RegisterClient net s address = .ok s1) : s1.WF := by
  cases hres : net.ResolveUDPAddr address with
  | error err =>
    rw [RegisterClient_error net s address err hres] at h
    cases h
  | ok udpAddr =>
    rw [RegisterClient_ok net s address udpAddr hres] at h
    cases h
    exact WF_insert s hwf address _

/-! ## One iteration of the listener -/

/-- The message read equals the tag exactly when the payload does: the buffer is
longer than the tag. -/
theorem readMessage_eq_tag (payload : String) :
    readMessage payload = "ECHO-RESPONSE" ↔ payload = "ECHO-RESPONSE" := by
  constructor
  · intro h
    have h1 : payload.data.take bufferSize = "ECHO-RESPONSE".data := by
      have := congrArg String.data h
      simpa [readMessage] using this
    have hlen : (payload.data.take bufferSize).length = 13 := by
      rw [h1]; rfl
    have hle : payload.data.length ≤ bufferSize := by
      rw [List.length_take] at hlen
      simp only [bufferSize] at hlen ⊢
      omega
    rw [List.take_of_length_le hle] at h1
    exact String.ext h1
  · intro h
    subst h
    rfl

/-- A read error leaves the server unchanged. -/
theorem listenStep_error (net : Net) (s : Server) (err : String) (now : Nat) :
    listenStep net s (.error err) now = some s := rfl

/-- A datagram other than the tag leaves the server unchanged. -/
theorem listenStep_other (net : Net) (s : Server) (payload : String) (addr : UDPAddr)
    (now : Nat) (h : payload ≠ "ECHO-RESPONSE") :
    listenStep net s (.datagram payload addr) now = some s := by
  have h1 : ¬ readMessage payload = "ECHO-RESPONSE" := fun e => h ((readMessage_eq_tag _).1 e)
  simp [listenStep, h1]

/-- An `ECHO-RESPONSE` from a key of the map is a `setActive(true)` on its object. -/
theorem listenStep_known (net : Net) (s : Server) (hwf : s.WF) (addr : UDPAddr) (now : Nat)
    (p : Nat) (hk : mapGet s.clients (net.addrString addr) = some p) :
    ∃ c, s.deref p = some c ∧
      listenStep net s (.datagram "ECHO-RESPONSE" addr) now =
        some { clients := s.clients, heap := s.heap.set p (c.setActive true now) } := by
  have hp := hwf.1 _ p hk
  have hm : readMessage "ECHO-RESPONSE" = "ECHO-RESPONSE" := rfl
  refine ⟨s.heap[p], by simp [Server.deref, hp], ?_⟩
  simp [listenStep, hm, hk, Server.setActive, Server.deref, hp]

/-- An `ECHO-RESPONSE` from an address that is no key of the map inserts an object. -/
theorem listenStep_unknown (net : Net) (s : Server) (addr : UDPAddr) (now : Nat)
    (hk : mapGet s.clients (net.addrString addr) = none) :
    listenStep net s (.datagram "ECHO-RESPONSE" addr) now =
      some { clients := mapSet s.clients (net.addrString addr) s.heap.length,
             heap := s.heap ++ [{ Address := addr, LastSeen := now, Active := true }] } := by
  have hm : readMessage "ECHO-RESPONSE" = "ECHO-RESPONSE" := rfl
  simp [listenStep, hm, hk, Server.alloc]

/-- An iteration of the listener on a well-formed server returns, and the server
stays well formed. -/
theorem listenStep_WF (net : Net) (s : Server) (hwf : s.WF) (r : ReadResult) (now : Nat) :
    ∃ s1, listenStep net s r now = some s1 ∧ s1.WF := by
  cases r with
  | error err => exact ⟨s, rfl, hwf⟩
  | datagram payload addr =>
    by_cases hp : payload = "ECHO-RESPONSE"
    · subst hp
      cases hk : mapGet s.clients (net.addrString addr) with
      | none =>
        exact ⟨_, listenStep_unknown net s addr now hk, WF_insert s hwf _ _⟩
      | some p =>
        obtain ⟨c, _, hstep⟩ := listenStep_known net s hwf addr now p hk
        exact ⟨_, hstep, WF_store s hwf p _⟩
    · exact ⟨s, listenStep_other net s payload addr now hp, hwf⟩

/-- The server after the two registrations of `main` is well formed. -/
theorem demoServer_WF : demoServer.WF := by
  have h1 : RegisterClient demoNet NewServer "127.0.0.1:8054" = .ok firstServer := by
    decide
  have h2 : RegisterClient demoNet firstServer "127.0.0.1:8055" = .ok demoServer := by
    decide
  exact RegisterClient_WF demoNet _ _ (RegisterClient_WF demoNet _ _ NewServer_WF _ h1) _ h2

/-- The server `liveServer` is well formed. -/
theorem liveServer_WF : liveServer.WF := by
  obtain ⟨s1, h1, hwf⟩ := listenStep_WF demoNet demoServer demoServer_WF
    (.datagram "ECHO-RESPONSE" (loopback 8054)) 100
  have h2 : listenStep demoNet demoServer (.datagram "ECHO-RESPONSE" (loopback 8054)) 100
      = some liveServer := by decide
  rw [h2] at h1
  cases h1
  exact hwf

/-- C6: for a well-formed registry and a resolvable address that is not a key of the
map, `RegisterClient` returns no error, the address then has an entry with
`Active = false` and the zero `LastSeen`, and every other entry is unchanged. -/
theorem RegisterClient_new (net : Net) (s : Server) (hwf : s.WF) (address : String)
    (udpAddr : UDPAddr) (hres : net.ResolveUDPAddr address = .ok udpAddr)
    (habsent : mapGet s.clients address = none) :
    s.peer address = none ∧
    ∃ s1, RegisterClient net s address = .ok s1 ∧
      s1.peer address = some { Address := udpAddr, LastSeen := 0, Active := false } ∧
      ∀ k, k ≠ address → s1.peer k = s.peer k := by
  refine ⟨by simp [Server.peer, habsent], _, RegisterClient_ok net s address udpAddr hres, ?_, ?_⟩
  · exact peer_insert_self s address _
  · intro k hk
    exact peer_insert_ne s hwf address _ k hk

/-- Witness of C6: registering `127.0.0.1:8054` in the empty server of `NewServer`. -/
theorem RegisterClient_new_witness :
    NewServer.peer "127.0.0.1:8054" = none ∧
    ∃ s1, RegisterClient demoNet NewServer "127.0.0.1:8054" = .ok s1 ∧
      s1.peer "127.0.0.1:8054" = some { Address := loopback 8054, LastSeen := 0, Active := false } ∧
      ∀ k, k ≠ "127.0.0.1:8054" → s1.peer k = NewServer.peer k :=
  RegisterClient_new demoNet NewServer NewServer_WF "127.0.0.1:8054" (loopback 8054)
    (by decide) (by decide)

/-- C1, as stated, fails: in the server where `127.0.0.1:8054` is active with
`LastSeen = 100` (reached from `NewServer` by the two registrations of `main` and one
`ECHO-RESPONSE`), registering the address again yields the entry with `Active = false`
and the zero `LastSeen`. -/
theorem RegisterClient_resets_live_peer :
    (∃ s0, RegisterClient demoNet NewServer "127.0.0.1:8054" = .ok s0 ∧
      RegisterClient demoNet s0 "127.0.0.1:8055" = .ok demoServer) ∧
    listenStep demoNet demoServer (.datagram "ECHO-RESPONSE" (loopback 8054)) 100
      = some liveServer ∧
    liveServer.peer "127.0.0.1:8054"
      = some { Address := loopback 8054, LastSeen := 100, Active := true } ∧
    ∃ s1, RegisterClient demoNet liveServer "127.0.0.1:8054" = .ok s1 ∧
      s1.peer "127.0.0.1:8054"
        = some { Address := loopback 8054, LastSeen := 0, Active := false } := by
  refine ⟨⟨_, rfl, by decide⟩, by decide, by decide, _, rfl, by decide⟩

/-- C1, amended: for a well-formed registry in which the address has an entry, in any
state, `RegisterClient` of that (resolvable) address replaces the entry by a fresh one
with `Active = false` and the zero `LastSeen`, leaves every other entry unchanged, and
registering once more gives the same entry again. -/
theorem RegisterClient_existing (net : Net) (s : Server) (hwf : s.WF) (address : String)
    (udpAddr : UDPAddr) (c : Client) (hres : net.ResolveUDPAddr address = .ok udpAddr)
    (hpresent : s.peer address = some c) :
    ∃ s1, RegisterClient net s address = .ok s1 ∧
      s1.peer address = some { Address := udpAddr, LastSeen := 0, Active := false } ∧
      (∀ k, k ≠ address → s1.peer k = s.peer k) ∧
      ∃ s2, RegisterClient net s1 address = .ok s2 ∧ s2.peer address = s1.peer address ∧
        ∀ k, k ≠ address → s2.peer k = s.peer k := by
  have _ := hpresent
  have hwf1 := WF_insert s hwf address { Address := udpAddr, LastSeen := 0, Active := false }
  refine ⟨_, RegisterClient_ok net s address udpAddr hres, peer_insert_self s address _, ?_,
    _, RegisterClient_ok net _ address udpAddr hres, ?_, ?_⟩
  · intro k hk
    exact peer_insert_ne s hwf address _ k hk
  · rw [peer_insert_self s address _]
    exact peer_insert_self _ address _
  · intro k hk
    rw [← peer_insert_ne s hwf address { Address := udpAddr, LastSeen := 0, Active := false } k hk]
    exact peer_insert_ne _ hwf1 address _ k hk

/-- Witness of the amended C1, at the live peer of `liveServer`. -/
theorem RegisterClient_existing_witness :
    ∃ s1, RegisterClient demoNet liveServer "127.0.0.1:8054" = .ok s1 ∧
      s1.peer "127.0.0.1:8054" = some { Address := loopback 8054, LastSeen := 0, Active := false } ∧
      (∀ k, k ≠ "127.0.0.1:8054" → s1.peer k = liveServer.peer k) ∧
      ∃ s2, RegisterClient demoNet s1 "127.0.0.1:8054" = .ok s2 ∧
        s2.peer "127.0.0.1:8054" = s1.peer "127.0.0.1:8054" ∧
        ∀ k, k ≠ "127.0.0.1:8054" → s2.peer k = liveServer.peer k :=
  RegisterClient_existing demoNet liveServer liveServer_WF "127.0.0.1:8054" (loopback 8054)
    { Address := loopback 8054, LastSeen := 100, Active := true } (by decide) (by decide)

/-! ## The listener and the registry -/

/-- C7: in a well-formed registry with an entry for the printed source address,
an `ECHO-RESPONSE` datagram makes that entry active with `LastSeen` the clock reading
of the step (its `Address` kept), and leaves every other entry unchanged. -/
theorem listenStep_marks_known_active (net : Net) (s : Server) (hwf : s.WF) (A : String)
    (c : Client) (addr : UDPAddr) (now : Nat) (hA : s.peer A = some c)
    (hfrom : net.addrString addr = A) :
    ∃ s1, listenStep net s (.datagram "ECHO-RESPONSE" addr) now = some s1 ∧
      s1.peer A = some { Address := c.Address, LastSeen := now, Active := true } ∧
      ∀ k, k ≠ A → s1.peer k = s.peer k := by
  subst hfrom
  cases hk : mapGet s.clients (net.addrString addr) with
  | none => simp [Server.peer, hk] at hA
  | some p =>
    obtain ⟨c1, hc1, hstep⟩ := listenStep_known net s hwf addr now p hk
    have hcc : c1 = c := by
      simp only [Server.peer, hk] at hA
      rw [hc1] at hA
      exact Option.some.inj hA
    subst hcc
    refine ⟨_, hstep, ?_, ?_⟩
    · rw [peer_store_self s hwf _ p _ hk]
      rfl
    · intro k hne
      exact peer_store_ne s hwf _ p _ hk k hne

/-- Witness of C7: the first client of `demoServer` answers at time `100`. -/
theorem listenStep_marks_known_active_witness :
    ∃ s1, listenStep demoNet demoServer (.datagram "ECHO-RESPONSE" (loopback 8054)) 100
        = some s1 ∧
      s1.peer "127.0.0.1:8054"
        = some { Address := loopback 8054, LastSeen := 100, Active := true } ∧
      ∀ k, k ≠ "127.0.0.1:8054" → s1.peer k = demoServer.peer k :=
  listenStep_marks_known_active demoNet demoServer demoServer_WF "127.0.0.1:8054"
    { Address := loopback 8054, LastSeen := 0, Active := false } (loopback 8054) 100
    (by decide) (by decide)

/-- C8: in a well-formed registry without an entry for the printed source address,
an `ECHO-RESPONSE` datagram creates the entry, active and with `LastSeen` the clock
reading of the step, and leaves every existing entry unchanged. -/
theorem listenStep_registers_unknown (net : Net) (s : Server) (hwf : s.WF) (A : String)
    (addr : UDPAddr) (now : Nat) (hA : mapGet s.clients A = none)
    (hfrom : net.addrString addr = A) :
    s.peer A = none ∧
    ∃ s1, listenStep net s (.datagram "ECHO-RESPONSE" addr) now = some s1 ∧
      s1.peer A = some { Address := addr, LastSeen := now, Active := true } ∧
      ∀ k, k ≠ A → s1.peer k = s.peer k := by
  subst hfrom
  refine ⟨by simp [Server.peer, hA], _, listenStep_unknown net s addr now hA, ?_, ?_⟩
  · exact peer_insert_self s _ _
  · intro k hne
    exact peer_insert_ne s hwf _ _ k hne

/-- Witness of C8: `127.0.0.1:8055` answers the server that only knows `127.0.0.1:8054`. -/
theorem listenStep_registers_unknown_witness :
    firstServer.peer "127.0.0.1:8055" = none ∧
    ∃ s1, listenStep demoNet firstServer (.datagram "ECHO-RESPONSE" (loopback 8055)) 7
        = some s1 ∧
      s1.peer "127.0.0.1:8055"
        = some { Address := loopback 8055, LastSeen := 7, Active := true } ∧
      ∀ k, k ≠ "127.0.0.1:8055" → s1.peer k = firstServer.peer k :=
  listenStep_registers_unknown demoNet firstServer
    (RegisterClient_WF demoNet NewServer firstServer NewServer_WF "127.0.0.1:8054" (by decide))
    "127.0.0.1:8055" (loopback 8055) 7 (by decide) (by decide)

/-- C9: `setActive(false)` clears `Active` and keeps `LastSeen` and `Address`, whatever
the state of the peer; on an inactive peer it changes nothing, and a second call
changes nothing more. -/
theorem setActive_false_spec (c : Client) (now now2 : Nat) :
    (c.setActive false now).Active = false ∧
    (c.setActive false now).LastSeen = c.LastSeen ∧
    (c.setActive false now).Address = c.Address ∧
    (c.Active = false → c.setActive false now = c) ∧
    (c.setActive false now).setActive false now2 = c.setActive false now := by
  refine ⟨rfl, rfl, rfl, ?_, rfl⟩
  intro h
  cases c
  simp only [Client.setActive] at *
  simp [h]

/-- Witness of C9: an inactive peer last seen at time `100`. -/
theorem setActive_false_spec_witness :
    (Client.setActive { Address := loopback 8054, LastSeen := 100, Active := false } false 5)
      = { Address := loopback 8054, LastSeen := 100, Active := false } :=
  (setActive_false_spec { Address := loopback 8054, LastSeen := 100, Active := false } 5 6).2.2.2.1
    rfl

/-- C10: a datagram whose payload is not exactly `ECHO-RESPONSE` leaves the whole
server unchanged, and the loop goes on with the next read. -/
theorem listenStep_ignores_other (net : Net) (s : Server) (payload : String) (addr : UDPAddr)
    (now : Nat) (rs : List (ReadResult × Nat)) (h : payload ≠ "ECHO-RESPONSE") :
    listenStep net s (.datagram payload addr) now = some s ∧
    listenForResponses net s ((.datagram payload addr, now) :: rs)
      = listenForResponses net s rs := by
  have h1 := listenStep_other net s payload addr now h
  refine ⟨h1, ?_⟩
  simp [listenForResponses, h1]

/-- Witness of C10: an `ECHO-REQUEST` from a registered peer, followed by its
`ECHO-RESPONSE`. -/
theorem listenStep_ignores_other_witness :
    listenStep demoNet demoServer (.datagram "ECHO-REQUEST" (loopback 8054)) 100
      = some demoServer ∧
    listenForResponses demoNet demoServer
        [(.datagram "ECHO-REQUEST" (loopback 8054), 100),
         (.datagram "ECHO-RESPONSE" (loopback 8054), 100)]
      = listenForResponses demoNet demoServer
        [(.datagram "ECHO-RESPONSE" (loopback 8054), 100)] :=
  listenStep_ignores_other demoNet demoServer "ECHO-REQUEST" (loopback 8054) 100
    [(.datagram "ECHO-RESPONSE" (loopback 8054), 100)] (by decide)

/-- The empty payload and payloads that contain or extend the tag are ignored too. -/
theorem listenStep_ignores_near_tags (net : Net) (s : Server) (addr : UDPAddr) (now : Nat) :
    listenStep net s (.datagram "" addr) now = some s ∧
    listenStep net s (.datagram "ECHO-RESPONSE\n" addr) now = some s ∧
    listenStep net s (.datagram " ECHO-RESPONSE" addr) now = some s ∧
    listenStep net s (.datagram "echo-response" addr) now = some s :=
  ⟨listenStep_other net s _ addr now (by decide), listenStep_other net s _ addr now (by decide),
   listenStep_other net s _ addr now (by decide), listenStep_other net s _ addr now (by decide)⟩

/-! ## The listener loop, seen from `pingClient` -/

/-- What an iteration of the listener keeps: well-formedness, the pointers of the
existing keys, the `Address` of every object, and every object whose key did not
send the `ECHO-RESPONSE`. -/
theorem listenStep_frame (net : Net) (s : Server) (hwf : s.WF) (r : ReadResult) (now : Nat) :
    ∃ s1, listenStep net s r now = some s1 ∧ s1.WF ∧
      (∀ k p, mapGet s.clients k = some p → mapGet s1.clients k = some p) ∧
      (∀ p c, s.deref p = some c → ∃ c1, s1.deref p = some c1 ∧ c1.Address = c.Address) ∧
      (∀ key p, mapGet s.clients key = some p →
        (∀ addr, r = .datagram "ECHO-RESPONSE" addr → net.addrString addr ≠ key) →
        s1.deref p = s.deref p) := by
  have hsame : ∃ s1, some s = some s1 ∧ s1.WF ∧
      (∀ k p, mapGet s.clients k = some p → mapGet s1.clients k = some p) ∧
      (∀ p c, s.deref p = some c → ∃ c1, s1.deref p = some c1 ∧ c1.Address = c.Address) ∧
      (∀ key p, mapGet s.clients key = some p →
        (∀ addr, r = .datagram "ECHO-RESPONSE" addr → net.addrString addr ≠ key) →
        s1.deref p = s.deref p) :=
    ⟨s, rfl, hwf, fun _ _ h => h, fun _ c h => ⟨c, h, rfl⟩, fun _ _ _ _ => rfl⟩
  cases r with
  | error err => exact hsame
  | datagram payload addr =>
    by_cases hp : payload = "ECHO-RESPONSE"
    · subst hp
      cases hk : mapGet s.clients (net.addrString addr) with
      | none =>
        refine ⟨_, listenStep_unknown net s addr now hk, WF_insert s hwf _ _, ?_, ?_, ?_⟩
        · intro k p h
          have hne : k ≠ net.addrString addr := by
            intro e
            rw [e, hk] at h
            cases h
          show mapGet (mapSet s.clients (net.addrString addr) s.heap.length) k = some p
          rw [mapGet_mapSet_ne _ _ _ _ hne]
          exact h
        · intro p c h
          have hp : p < s.heap.length := by
            obtain ⟨hlt, _⟩ := List.getElem?_eq_some.1 h
            exact hlt
          exact ⟨c, by rw [deref_insert s _ _ p hp]; exact h, rfl⟩
        · intro key p h _
          exact deref_insert s _ _ p (hwf.1 key p h)
      | some q =>
        obtain ⟨cq, hcq, hstep⟩ := listenStep_known net s hwf addr now q hk
        refine ⟨_, hstep, WF_store s hwf q _, fun _ _ h => h, ?_, ?_⟩
        · intro p c h
          by_cases hpq : q = p
          · subst hpq
            have hlt : q < s.heap.length := hwf.1 _ q hk
            have hc : cq = c := by
              rw [hcq] at h
              exact Option.some.inj h
            subst hc
            exact ⟨cq.setActive true now, by simp [Server.deref, hlt], rfl⟩
          · refine ⟨c, ?_, rfl⟩
            simp only [Server.deref]
            rw [List.getElem?_set_ne hpq]
            exact h
        · intro key p h hsilent
          have hne : q ≠ p := by
            intro e
            subst e
            exact hsilent addr rfl (hwf.2 _ _ q hk h)
          simp only [Server.deref]
          exact List.getElem?_set_ne hne
    · rw [listenStep_other net s payload addr now hp]
      obtain ⟨s1, h1, h2, h3, h4, _⟩ := hsame
      refine ⟨s1, h1, h2, h3, h4, ?_⟩
      intro key p _ _
      cases h1
      rfl

/-- The listener loop on a well-formed server returns, and keeps what each iteration
keeps; an object whose key sent no `ECHO-RESPONSE` during the loop is unchanged. -/
theorem listenForResponses_frame (net : Net) (rs : List (ReadResult × Nat)) :
    ∀ (s : Server), s.WF →
    ∃ s1, listenForResponses net s rs = some s1 ∧ s1.WF ∧
      (∀ k p, mapGet s.clients k = some p → mapGet s1.clients k = some p) ∧
      (∀ p c, s.deref p = some c → ∃ c1, s1.deref p = some c1 ∧ c1.Address = c.Address) ∧
      (∀ key p, mapGet s.clients key = some p →
        (∀ r now, (r, now) ∈ rs → ∀ addr, r = .datagram "ECHO-RESPONSE" addr →
          net.addrString addr ≠ key) →
        s1.deref p = s.deref p) := by
  induction rs with
  | nil =>
    intro s hwf
    exact ⟨s, rfl, hwf, fun _ _ h => h, fun _ c h => ⟨c, h, rfl⟩, fun _ _ _ _ => rfl⟩
  | cons e rest ih =>
    intro s hwf
    obtain ⟨r, now⟩ := e
    obtain ⟨s1, h1, hwf1, hmap1, haddr1, hsil1⟩ := listenStep_frame net s hwf r now
    obtain ⟨s2, h2, hwf2, hmap2, haddr2, hsil2⟩ := ih s1 hwf1
    refine ⟨s2, by simp [listenForResponses, h1, h2], hwf2, ?_, ?_, ?_⟩
    · intro k p h
      exact hmap2 k p (hmap1 k p h)
    · intro p c h
      obtain ⟨c1, hc1, ha1⟩ := haddr1 p c h
      obtain ⟨c2, hc2, ha2⟩ := haddr2 p c1 hc1
      exact ⟨c2, hc2, ha2.trans ha1⟩
    · intro key p h hsilent
      rw [hsil2 key p (hmap1 key p h)
        (fun r2 now2 hmem => hsilent r2 now2 (List.mem_cons_of_mem _ hmem))]
      exact hsil1 key p h (fun addr hr => hsilent r now (List.mem_cons_self _ _) addr hr)

/-! ## One attempt of `pingClient` -/

theorem attempts_eq : attempts = [1, 2, 3] := rfl

/-- An attempt whose send fails: `setActive(false)` and return. -/
theorem pingAttempts_send_fails (net : Net) (env : PingEnv) (client : Nat) (a : Nat)
    (rest : List Nat) (st : PingState) (c : Client) (hc : st.server.deref client = some c)
    (hf : env.sendFails a = true) :
    pingAttempts net env client (a :: rest) st =
      some { server := { clients := st.server.clients,
                         heap := st.server.heap.set client (c.setActive false 0) },
             received := st.received,
             trace := st.trace ++ [Event.write "ECHO-REQUEST" c.Address,
                                   Event.setActive client false] } := by
  simp [pingAttempts, hc, hf, Server.setActive]

/-- An attempt before the third whose send succeeds, with nothing in `received`:
the listener runs during the wait, the timeout fires, and the loop goes on. -/
theorem pingAttempts_retry (net : Net) (env : PingEnv) (client : Nat) (a : Nat)
    (rest : List Nat) (st : PingState) (c : Client) (s2 : Server)
    (hc : st.server.deref client = some c) (hf : env.sendFails a = false)
    (hr : st.received = [])
    (hl : listenForResponses net st.server (env.window a) = some s2) (ha : a ≠ 3) :
    pingAttempts net env client (a :: rest) st =
      pingAttempts net env client rest
        { server := s2, received := [],
          trace := st.trace ++ [Event.write "ECHO-REQUEST" c.Address,
                                Event.timeout attemptTimeout] } := by
  simp [pingAttempts, hc, hf, hr, hl, ha]

/-- The third attempt, when its send succeeds, with nothing in `received`: after the
timeout the client is set inactive, and the loop goes on. -/
theorem pingAttempts_last (net : Net) (env : PingEnv) (client : Nat)
    (rest : List Nat) (st : PingState) (c c2 : Client) (s2 : Server)
    (hc : st.server.deref client = some c) (hf : env.sendFails 3 = false)
    (hr : st.received = [])
    (hl : listenForResponses net st.server (env.window 3) = some s2)
    (hc2 : s2.deref client = some c2) :
    pingAttempts net env client (3 :: rest) st =
      pingAttempts net env client rest
        { server := { clients := s2.clients, heap := s2.heap.set client (c2.setActive false 0) },
          received := [],
          trace := st.trace ++ [Event.write "ECHO-REQUEST" c.Address,
                                Event.timeout attemptTimeout,
                                Event.setActive client false] } := by
  simp [pingAttempts, hc, hf, hr, hl, hc2, Server.setActive]

/-! ## `pingClient` always returns -/

/-- On a well-formed server and a pointer to an allocated object, `pingClient` returns
in every environment; the server stays well formed, the pointers of the keys are kept,
and the `select` never ends by `received`. -/
theorem pingClient_returns (net : Net) (env : PingEnv) (s : Server) (hwf : s.WF)
    (client : Nat) (c : Client) (hc : s.deref client = some c) :
    ∃ st, pingClient net env s client = some st ∧ st.server.WF ∧
      (∀ k p, mapGet s.clients k = some p → mapGet st.server.clients k = some p) ∧
      Event.received ∉ st.trace := by
  obtain ⟨s1, h1, hwf1, hmap1, haddr1, _⟩ := listenForResponses_frame net (env.window 1) s hwf
  obtain ⟨s2, h2, hwf2, hmap2, haddr2, _⟩ := listenForResponses_frame net (env.window 2) s1 hwf1
  obtain ⟨s3, h3, hwf3, hmap3, haddr3, _⟩ := listenForResponses_frame net (env.window 3) s2 hwf2
  obtain ⟨c1, hd1, _⟩ := haddr1 client c hc
  obtain ⟨c2, hd2, _⟩ := haddr2 client c1 hd1
  obtain ⟨c3, hd3, _⟩ := haddr3 client c2 hd2
  unfold pingClient
  rw [attempts_eq]
  cases hf1 : env.sendFails 1 with
  | true =>
    rw [pingAttempts_send_fails net env client 1 _ _ c hc hf1]
    exact ⟨_, rfl, WF_store s hwf client _, fun _ _ h => h, by simp⟩
  | false =>
    rw [pingAttempts_retry net env client 1 _ _ c s1 hc hf1 rfl h1 (by decide)]
    cases hf2 : env.sendFails 2 with
    | true =>
      rw [pingAttempts_send_fails net env client 2 _ _ c1 hd1 hf2]
      exact ⟨_, rfl, WF_store s1 hwf1 client _, hmap1, by simp⟩
    | false =>
      rw [pingAttempts_retry net env client 2 _ _ c1 s2 hd1 hf2 rfl h2 (by decide)]
      cases hf3 : env.sendFails 3 with
      | true =>
        rw [pingAttempts_send_fails net env client 3 _ _ c2 hd2 hf3]
        exact ⟨_, rfl, WF_store s2 hwf2 client _,
          fun k p h => hmap2 k p (hmap1 k p h), by simp⟩
      | false =>
        rw [pingAttempts_last net env client _ _ c2 c3 s3 hd2 hf3 rfl h3 hd3]
        exact ⟨_, rfl, WF_store s3 hwf3 client _,
          fun k p h => hmap3 k p (hmap2 k p (hmap1 k p h)), by simp⟩

/-! ## `pingClient` on a peer that never replies -/

/-- C4: for a registered peer that sends no `ECHO-RESPONSE` during the three waits and
whose three sends succeed, `pingClient` returns after exactly the actions send,
timeout, send, timeout, send, timeout, `setActive(false)`: three sends, three full
timeouts, the entry unchanged after each wait, and finally the entry inactive with
its `LastSeen` and `Address` kept. -/
theorem pingClient_silent_peer (net : Net) (env : PingEnv) (s : Server) (hwf : s.WF)
    (key : String) (client : Nat) (c : Client)
    (hk : mapGet s.clients key = some client) (hc : s.deref client = some c)
    (hsend : ∀ a, 1 ≤ a → a ≤ 3 → env.sendFails a = false)
    (hsilent : ∀ a r now, (r, now) ∈ env.window a →
      ∀ addr, r = .datagram "ECHO-RESPONSE" addr → net.addrString addr ≠ key) :
    ∃ s1 s2 s3 st,
      listenForResponses net s (env.window 1) = some s1 ∧ s1.peer key = some c ∧
      listenForResponses net s1 (env.window 2) = some s2 ∧ s2.peer key = some c ∧
      listenForResponses net s2 (env.window 3) = some s3 ∧ s3.peer key = some c ∧
      pingClient net env s client = some st ∧
      st.trace = [Event.write "ECHO-REQUEST" c.Address, Event.timeout attemptTimeout,
                  Event.write "ECHO-REQUEST" c.Address, Event.timeout attemptTimeout,
                  Event.write "ECHO-REQUEST" c.Address, Event.timeout attemptTimeout,
                  Event.setActive client false] ∧
      sendCalls st.trace = 3 ∧ waited st.trace = 3 * attemptTimeout ∧
      s3.setActive client false 0 = some st.server ∧
      st.server.peer key
        = some { Address := c.Address, LastSeen := c.LastSeen, Active := false } := by
  obtain ⟨s1, h1, hwf1, hmap1, _, hsil1⟩ := listenForResponses_frame net (env.window 1) s hwf
  obtain ⟨s2, h2, hwf2, hmap2, _, hsil2⟩ := listenForResponses_frame net (env.window 2) s1 hwf1
  obtain ⟨s3, h3, hwf3, hmap3, _, hsil3⟩ := listenForResponses_frame net (env.window 3) s2 hwf2
  have hk1 := hmap1 key client hk
  have hk2 := hmap2 key client hk1
  have hk3 := hmap3 key client hk2
  have hd1 : s1.deref client = some c := (hsil1 key client hk (hsilent 1)).trans hc
  have hd2 : s2.deref client = some c := (hsil2 key client hk1 (hsilent 2)).trans hd1
  have hd3 : s3.deref client = some c := (hsil3 key client hk2 (hsilent 3)).trans hd2
  have hrun : pingClient net env s client =
      some { server := { clients := s3.clients,
                         heap := s3.heap.set client (c.setActive false 0) },
             received := [],
             trace := [Event.write "ECHO-REQUEST" c.Address, Event.timeout attemptTimeout,
                  Event.write "ECHO-REQUEST" c.Address, Event.timeout attemptTimeout,
                  Event.write "ECHO-REQUEST" c.Address, Event.timeout attemptTimeout,
                  Event.setActive client false] } := by
    unfold pingClient
    rw [attempts_eq]
    rw [pingAttempts_retry net env client 1 _ _ c s1 hc (hsend 1 (by decide) (by decide)) rfl h1
      (by decide)]
    rw [pingAttempts_retry net env client 2 _ _ c s2 hd1 (hsend 2 (by decide) (by decide)) rfl h2
      (by decide)]
    rw [pingAttempts_last net env client _ _ c c s3 hd2 (hsend 3 (by decide) (by decide)) rfl h3
      hd3]
    simp [pingAttempts]
  refine ⟨s1, s2, s3, _, h1, ?_, h2, ?_, h3, ?_, hrun, rfl, rfl, ?_, ?_, ?_⟩
  · simp [Server.peer, hk1, hd1]
  · simp [Server.peer, hk2, hd2]
  · simp [Server.peer, hk3, hd3]
  · simp only [waited]
    omega
  · simp [Server.setActive, hd3]
  · rw [peer_store_self s3 hwf3 key client _ hk3]
    rfl

/-- Witness of C4: the first client of `demoServer` stays silent while the second one
answers during every attempt. -/
theorem pingClient_silent_peer_witness :
    ∃ st, pingClient demoNet bystanderEnv demoServer 0 = some st ∧
      st.trace = [Event.write "ECHO-REQUEST" (loopback 8054), Event.timeout attemptTimeout,
                  Event.write "ECHO-REQUEST" (loopback 8054), Event.timeout attemptTimeout,
                  Event.write "ECHO-REQUEST" (loopback 8054), Event.timeout attemptTimeout,
                  Event.setActive 0 false] ∧
      waited st.trace = 3 * attemptTimeout ∧
      st.server.peer "127.0.0.1:8054"
        = some { Address := loopback 8054, LastSeen := 0, Active := false } := by
  obtain ⟨_, _, _, st, _, _, _, _, _, _, hrun, htrace, _, hwait, _, hpeer⟩ :=
    pingClient_silent_peer demoNet bystanderEnv demoServer demoServer_WF "127.0.0.1:8054" 0
      { Address := loopback 8054, LastSeen := 0, Active := false } (by decide) (by decide)
      (by intro a _ _; rfl)
      (by
        intro a r now hmem addr hr
        simp only [bystanderEnv, List.mem_singleton, Prod.mk.injEq] at hmem
        rw [hmem.1] at hr
        cases hr
        decide)
  exact ⟨st, hrun, htrace, hwait, hpeer⟩

/-! ## `pingClient` when a send fails -/

/-- C5: for a registered peer, if the send of attempt `k` (`1 ≤ k ≤ 3`) fails and the
sends before it succeeded, `pingClient` returns with exactly `k` sends, the last one
immediately followed by `setActive(false)`, after `k - 1` timeouts, and the entry of
the peer is inactive. -/
theorem pingClient_send_failure (net : Net) (env : PingEnv) (s : Server) (hwf : s.WF)
    (key : String) (client : Nat) (c : Client) (k : Nat)
    (hk : mapGet s.clients key = some client) (hc : s.deref client = some c)
    (hk1 : 1 ≤ k) (hk3 : k ≤ 3) (hfail : env.sendFails k = true)
    (hok : ∀ j, 1 ≤ j → j < k → env.sendFails j = false) :
    ∃ st c1, pingClient net env s client = some st ∧
      st.trace = (List.replicate (k - 1)
          [Event.write "ECHO-REQUEST" c.Address, Event.timeout attemptTimeout]).flatten ++
        [Event.write "ECHO-REQUEST" c.Address, Event.setActive client false] ∧
      sendCalls st.trace = k ∧ waited st.trace = (k - 1) * attemptTimeout ∧
      st.server.peer key = some c1 ∧ c1.Active = false ∧ c1.Address = c.Address := by
  obtain ⟨s1, h1, hwf1, hmap1, haddr1, _⟩ := listenForResponses_frame net (env.window 1) s hwf
  obtain ⟨s2, h2, hwf2, hmap2, haddr2, _⟩ := listenForResponses_frame net (env.window 2) s1 hwf1
  have hk1m := hmap1 key client hk
  have hk2m := hmap2 key client hk1m
  obtain ⟨c1, hd1, ha1⟩ := haddr1 client c hc
  obtain ⟨c2, hd2, ha2⟩ := haddr2 client c1 hd1
  have hcases : k = 1 ∨ k = 2 ∨ k = 3 := by omega
  rcases hcases with h | h | h
  · subst h
    have hrun : pingClient net env s client =
        some { server := { clients := s.clients,
                           heap := s.heap.set client (c.setActive false 0) },
               received := [],
               trace := [] ++ [Event.write "ECHO-REQUEST" c.Address,
                               Event.setActive client false] } := by
      unfold pingClient
      rw [attempts_eq, pingAttempts_send_fails net env client 1 _ _ c hc hfail]
    refine ⟨_, c.setActive false 0, hrun, ?_, ?_, ?_, ?_, rfl, rfl⟩
    · simp
    · simp [sendCalls]
    · simp [waited]
    · exact peer_store_self s hwf key client _ hk
  · subst h
    have hrun : pingClient net env s client =
        some { server := { clients := s1.clients,
                           heap := s1.heap.set client (c1.setActive false 0) },
               received := [],
               trace := [] ++ [Event.write "ECHO-REQUEST" c.Address,
                               Event.timeout attemptTimeout] ++
                        [Event.write "ECHO-REQUEST" c1.Address,
                         Event.setActive client false] } := by
      unfold pingClient
      rw [attempts_eq, pingAttempts_retry net env client 1 _ _ c s1 hc
        (hok 1 (by decide) (by decide)) rfl h1 (by decide),
        pingAttempts_send_fails net env client 2 _ _ c1 hd1 hfail]
    refine ⟨_, c1.setActive false 0, hrun, ?_, ?_, ?_, ?_, rfl, ha1⟩
    · simp [ha1]
    · simp [sendCalls]
    · simp [waited]
    · exact peer_store_self s1 hwf1 key client _ hk1m
  · subst h
    have hrun : pingClient net env s client =
        some { server := { clients := s2.clients,
                           heap := s2.heap.set client (c2.setActive false 0) },
               received := [],
               trace := [] ++ [Event.write "ECHO-REQUEST" c.Address,
                               Event.timeout attemptTimeout] ++
                        [Event.write "ECHO-REQUEST" c1.Address,
                         Event.timeout attemptTimeout] ++
                        [Event.write "ECHO-REQUEST" c2.Address,
                         Event.setActive client false] } := by
      unfold pingClient
      rw [attempts_eq, pingAttempts_retry net env client 1 _ _ c s1 hc
        (hok 1 (by decide) (by decide)) rfl h1 (by decide),
        pingAttempts_retry net env client 2 _ _ c1 s2 hd1
        (hok 2 (by decide) (by decide)) rfl h2 (by decide),
        pingAttempts_send_fails net env client 3 _ _ c2 hd2 hfail]
    refine ⟨_, c2.setActive false 0, hrun, ?_, ?_, ?_, ?_, rfl, ha2.trans ha1⟩
    · simp [ha1, ha2, List.replicate]
    · simp [sendCalls]
    · simp only [List.nil_append, List.cons_append, waited]
      omega
    · exact peer_store_self s2 hwf2 key client _ hk2m

/-- Witness of C5: the send of the first attempt fails; one send, then inactive. -/
theorem pingClient_send_failure_witness :
    ∃ st c1, pingClient demoNet (failEnv 1) liveServer 0 = some st ∧
      st.trace = [Event.write "ECHO-REQUEST" (loopback 8054), Event.setActive 0 false] ∧
      sendCalls st.trace = 1 ∧ waited st.trace = 0 ∧
      st.server.peer "127.0.0.1:8054" = some c1 ∧ c1.Active = false ∧
      c1.Address = loopback 8054 := by
  simpa using
    pingClient_send_failure demoNet (failEnv 1) liveServer liveServer_WF "127.0.0.1:8054" 0
      { Address := loopback 8054, LastSeen := 100, Active := true } 1 (by decide) (by decide)
      (by decide) (by decide) (by decide) (by intro j h1 h2; omega)

/-! ## `pingClient` on a peer that replies -/

/-- C2 at a replying peer: no send fails and the first client of `demoServer` answers
during every wait (the listener marks it active at times `10`, `20`, `30`), yet when
`pingClient` has finished its entry is inactive. -/
theorem pingClient_replying_peer_ends_inactive :
    (∀ a, replyEnv.sendFails a = false) ∧
    (∃ s1, listenForResponses demoNet demoServer (replyEnv.window 1) = some s1 ∧
      s1.peer "127.0.0.1:8054"
        = some { Address := loopback 8054, LastSeen := 10, Active := true }) ∧
    ∃ st, pingClient demoNet replyEnv demoServer 0 = some st ∧
      st.server.peer "127.0.0.1:8054"
        = some { Address := loopback 8054, LastSeen := 30, Active := false } := by
  refine ⟨fun _ => rfl, ⟨_, rfl, by decide⟩, _, rfl, by decide⟩

/-- C3 at a replying peer: the listener confirms the first client of `demoServer`
during the wait of attempt 1, yet `pingClient` takes the timeout branch, sends the
probes of attempts 2 and 3 and calls `setActive(false)`; `received` is never taken. -/
theorem pingClient_keeps_probing_after_reply :
    (∀ a, replyEnv.sendFails a = false) ∧
    (∃ s1, listenForResponses demoNet demoServer (replyEnv.window 1) = some s1 ∧
      s1.peer "127.0.0.1:8054"
        = some { Address := loopback 8054, LastSeen := 10, Active := true }) ∧
    ∃ st, pingClient demoNet replyEnv demoServer 0 = some st ∧
      st.trace = [Event.write "ECHO-REQUEST" (loopback 8054), Event.timeout attemptTimeout,
                  Event.write "ECHO-REQUEST" (loopback 8054), Event.timeout attemptTimeout,
                  Event.write "ECHO-REQUEST" (loopback 8054), Event.timeout attemptTimeout,
                  Event.setActive 0 false] ∧
      sendCalls st.trace = 3 := by
  refine ⟨fun _ => rfl, ⟨_, rfl, by decide⟩, _, rfl, by decide, by decide⟩

/-! ## What an action does to the entries and to the objects -/

/-- The entries after a write through the pointer `p`. -/
theorem peer_store (s : Server) (p : Nat) (c : Client) (hp : p < s.heap.length) (k : String) :
    Server.peer { clients := s.clients, heap := s.heap.set p c } k =
      if mapGet s.clients k = some p then some c else s.peer k := by
  simp only [Server.peer, Server.deref]
  cases hg : mapGet s.clients k with
  | none => simp
  | some q =>
    by_cases hq : q = p
    · subst hq
      simp [hp]
    · have hne : p ≠ q := fun e => hq e.symm
      simp [hq, List.getElem?_set_ne hne]

/-- The objects after a write through the pointer `p`. -/
theorem deref_store (s : Server) (p : Nat) (c : Client) (hp : p < s.heap.length) (q : Nat) :
    Server.deref { clients := s.clients, heap := s.heap.set p c } q =
      if q = p then some c else s.deref q := by
  simp only [Server.deref]
  by_cases hq : q = p
  · subst hq
    simp [hp]
  · have hne : p ≠ q := fun e => hq e.symm
    simp [hq, List.getElem?_set_ne hne]

/-- The objects after an insertion. -/
theorem deref_insert_cases (s : Server) (k : String) (c : Client) (q : Nat) (c1 : Client)
    (h : Server.deref { clients := mapSet s.clients k s.heap.length, heap := s.heap ++ [c] } q
      = some c1) :
    s.deref q = some c1 ∨ (q = s.heap.length ∧ c1 = c) := by
  simp only [Server.deref] at h ⊢
  by_cases hq : q < s.heap.length
  · rw [List.getElem?_append_left hq] at h
    exact Or.inl h
  · have hge : s.heap.length ≤ q := Nat.le_of_not_lt hq
    rw [List.getElem?_append_right hge] at h
    by_cases hz : q - s.heap.length = 0
    · rw [hz] at h
      simp at h
      exact Or.inr ⟨by omega, h.symm⟩
    · obtain ⟨n, hn⟩ := Nat.exists_eq_succ_of_ne_zero hz
      rw [hn] at h
      simp at h

/-- `setActive` through a pointer succeeds exactly on allocated objects. -/
theorem setActive_some (s s1 : Server) (p : Nat) (active : Bool) (now : Nat)
    (h : s.setActive p active now = some s1) :
    ∃ c, s.deref p = some c ∧ p < s.heap.length ∧
      s1 = { clients := s.clients, heap := s.heap.set p (c.setActive active now) } := by
  unfold Server.setActive at h
  cases hd : s.deref p with
  | none => simp [hd] at h
  | some c =>
    simp only [hd] at h
    refine ⟨c, rfl, ?_, (Option.some.inj h).symm⟩
    obtain ⟨hlt, _⟩ := List.getElem?_eq_some.1 hd
    exact hlt

/-- An action keeps the server well formed; every entry is afterwards as before, or
not active, or was written by a listener step with its clock reading; and every object
has a `LastSeen` that is zero, or the clock reading of the listener step, or as before. -/
theorem act_effect (net : Net) (s : Server) (hwf : s.WF) (a : Action) (s1 : Server)
    (h : s.act net a = some s1) :
    s1.WF ∧
    (∀ k, s1.peer k = s.peer k ∨ activeEntry (s1.peer k) = false ∨
      ∃ r now c1, a = .listen r now ∧ s1.peer k = some c1 ∧ c1.Active = true ∧
        c1.LastSeen = now) ∧
    (∀ q c1, s1.deref q = some c1 →
      c1.LastSeen = 0 ∨ (∃ r now, a = .listen r now ∧ c1.LastSeen = now) ∨
      ∃ c, s.deref q = some c ∧ c1.LastSeen = c.LastSeen) := by
  have hsame : ∀ s2 : Server, s2 = s →
      s2.WF ∧
      (∀ k, s2.peer k = s.peer k ∨ activeEntry (s2.peer k) = false ∨
        ∃ r now c1, a = .listen r now ∧ s2.peer k = some c1 ∧ c1.Active = true ∧
          c1.LastSeen = now) ∧
      (∀ q c1, s2.deref q = some c1 →
        c1.LastSeen = 0 ∨ (∃ r now, a = .listen r now ∧ c1.LastSeen = now) ∨
        ∃ c, s.deref q = some c ∧ c1.LastSeen = c.LastSeen) := by
    intro s2 e
    subst e
    exact ⟨hwf, fun _ => Or.inl rfl, fun q c1 hq => Or.inr (Or.inr ⟨c1, hq, rfl⟩)⟩
  cases a with
  | register address =>
    simp only [Server.act] at h
    cases hres : net.ResolveUDPAddr address with
    | error err =>
      rw [RegisterClient_error net s address err hres] at h
      exact hsame s1 (Option.some.inj h).symm
    | ok udpAddr =>
      rw [RegisterClient_ok net s address udpAddr hres] at h
      have e := (Option.some.inj h).symm
      subst e
      refine ⟨WF_insert s hwf address _, ?_, ?_⟩
      · intro k
        by_cases hk : k = address
        · subst hk
          refine Or.inr (Or.inl ?_)
          rw [peer_insert_self]
          rfl
        · exact Or.inl (peer_insert_ne s hwf address _ k hk)
      · intro q c1 hq
        rcases deref_insert_cases s address _ q c1 hq with hold | ⟨_, hnew⟩
        · exact Or.inr (Or.inr ⟨c1, hold, rfl⟩)
        · subst hnew
          exact Or.inl rfl
  | listen r now =>
    simp only [Server.act] at h
    cases r with
    | error err =>
      exact hsame s1 (Option.some.inj h).symm
    | datagram payload addr =>
      by_cases hp : payload = "ECHO-RESPONSE"
      · subst hp
        cases hk : mapGet s.clients (net.addrString addr) with
        | none =>
          rw [listenStep_unknown net s addr now hk] at h
          have e := (Option.some.inj h).symm
          subst e
          refine ⟨WF_insert s hwf _ _, ?_, ?_⟩
          · intro k
            by_cases hkk : k = net.addrString addr
            · subst hkk
              exact Or.inr (Or.inr ⟨_, now, _, rfl, peer_insert_self s _ _, rfl, rfl⟩)
            · exact Or.inl (peer_insert_ne s hwf _ _ k hkk)
          · intro q c1 hq
            rcases deref_insert_cases s _ _ q c1 hq with hold | ⟨_, hnew⟩
            · exact Or.inr (Or.inr ⟨c1, hold, rfl⟩)
            · subst hnew
              exact Or.inr (Or.inl ⟨_, now, rfl, rfl⟩)
        | some p =>
          obtain ⟨c, hc, hstep⟩ := listenStep_known net s hwf addr now p hk
          rw [hstep] at h
          have e := (Option.some.inj h).symm
          subst e
          have hlt : p < s.heap.length := hwf.1 _ p hk
          refine ⟨WF_store s hwf p _, ?_, ?_⟩
          · intro k
            rw [peer_store s p _ hlt k]
            by_cases hkp : mapGet s.clients k = some p
            · rw [if_pos hkp]
              exact Or.inr (Or.inr ⟨_, now, _, rfl, rfl, rfl, rfl⟩)
            · rw [if_neg hkp]
              exact Or.inl rfl
          · intro q c1 hq
            rw [deref_store s p _ hlt q] at hq
            by_cases hqp : q = p
            · rw [if_pos hqp] at hq
              have e := (Option.some.inj hq).symm
              subst e
              exact Or.inr (Or.inl ⟨_, now, rfl, rfl⟩)
            · rw [if_neg hqp] at hq
              exact Or.inr (Or.inr ⟨c1, hq, rfl⟩)
      · rw [listenStep_other net s payload addr now hp] at h
        exact hsame s1 (Option.some.inj h).symm
  | markInactive client =>
    simp only [Server.act] at h
    obtain ⟨c, hc, hlt, e⟩ := setActive_some s s1 client false 0 h
    subst e
    refine ⟨WF_store s hwf client _, ?_, ?_⟩
    · intro k
      rw [peer_store s client _ hlt k]
      by_cases hkp : mapGet s.clients k = some client
      · rw [if_pos hkp]
        exact Or.inr (Or.inl rfl)
      · rw [if_neg hkp]
        exact Or.inl rfl
    · intro q c1 hq
      rw [deref_store s client _ hlt q] at hq
      by_cases hqp : q = client
      · rw [if_pos hqp] at hq
        have e := (Option.some.inj hq).symm
        subst e
        subst hqp
        exact Or.inr (Or.inr ⟨c, hc, rfl⟩)
      · rw [if_neg hqp] at hq
        exact Or.inr (Or.inr ⟨c1, hq, rfl⟩)

/-! ## The invariant of the runs -/

theorem Sys.init_Inv : Sys.init.Inv := by
  refine ⟨NewServer_WF, ?_, ?_, ?_⟩
  · intro k t h
    simp [Sys.init] at h
  · intro q c h
    simp [Sys.init, NewServer, Server.deref] at h
  · intro k c h
    simp [Sys.init, NewServer, Server.peer, mapGet] at h

/-- An entry is an object of the heap. -/
theorem peer_deref (s : Server) (k : String) (c : Client) (h : s.peer k = some c) :
    ∃ p, mapGet s.clients k = some p ∧ s.deref p = some c := by
  unfold Server.peer at h
  cases hg : mapGet s.clients k with
  | none => simp [hg] at h
  | some p =>
    simp only [hg] at h
    exact ⟨p, rfl, h⟩

/-- A step of the system is a step of its server, at the clock reading of the action. -/
theorem Sys.step_some (net : Net) (σ σ1 : Sys) (a : Action) (h : σ.step net a = some σ1) :
    σ.server.act net a = some σ1.server ∧ σ1.clock = a.clock σ.clock ∧
    ∀ k, σ1.activatedAt k =
      if activeEntry (σ1.server.peer k) && !activeEntry (σ.server.peer k)
      then some (a.clock σ.clock) else σ.activatedAt k := by
  unfold Sys.step at h
  cases hact : σ.server.act net a with
  | none => simp [hact] at h
  | some s1 =>
    simp only [hact] at h
    have e := (Option.some.inj h).symm
    subst e
    exact ⟨rfl, rfl, fun _ => rfl⟩

/-- A step whose clock reading is not earlier than the last one, and is not the zero
time when it is a listener step, keeps the invariant. -/
theorem Sys.step_Inv (net : Net) (σ σ1 : Sys) (a : Action) (hinv : σ.Inv)
    (hclk : σ.clock ≤ a.clock σ.clock) (hpos : ∀ r now, a = .listen r now → 0 < now)
    (h : σ.step net a = some σ1) : σ1.Inv := by
  obtain ⟨hwf, hghost, hobj, hent⟩ := hinv
  obtain ⟨hact, hclock, hrec⟩ := Sys.step_some net σ σ1 a h
  obtain ⟨hwf1, hpeers, hobjs⟩ := act_effect net σ.server hwf a σ1.server hact
  refine ⟨hwf1, ?_, ?_, ?_⟩
  · intro k t ht
    rw [hrec k] at ht
    split at ht
    · have e := Option.some.inj ht
      omega
    · have := hghost k t ht
      omega
  · intro q c1 hq
    rcases hobjs q c1 hq with h0 | ⟨r, now, ha, hnow⟩ | ⟨c, hc, hsame⟩
    · omega
    · subst ha
      simp only [Action.clock] at hclock
      omega
    · have := hobj q c hc
      omega
  · intro k c1 hk hactive
    rcases hpeers k with hsame | hinact | ⟨r, now, c2, ha, hk2, _, hnow⟩
    · rw [hsame] at hk
      obtain ⟨hp, t, ht, hle⟩ := hent k c1 hk hactive
      refine ⟨hp, t, ?_, hle⟩
      rw [hrec k, hsame, hk]
      simp [activeEntry, hactive, ht]
    · rw [hk] at hinact
      simp [activeEntry, hactive] at hinact
    · subst ha
      rw [hk] at hk2
      have e := Option.some.inj hk2
      subst e
      have hnowpos := hpos r now rfl
      simp only [Action.clock] at hclock hclk hrec
      refine ⟨by omega, ?_⟩
      rw [hrec k, hk]
      cases hold : activeEntry (σ.server.peer k) with
      | false =>
        refine ⟨now, by simp [activeEntry, hactive], by omega⟩
      | true =>
        cases hpk : σ.server.peer k with
        | none => simp [hpk, activeEntry] at hold
        | some c0 =>
          rw [hpk] at hold
          simp only [activeEntry] at hold
          obtain ⟨_, t, ht, hle⟩ := hent k c0 hpk hold
          obtain ⟨p, _, hd⟩ := peer_deref σ.server k c0 hpk
          have := hobj p c0 hd
          refine ⟨t, by simp [activeEntry, hactive, ht], by omega⟩

/-- The first action of a run with a monotone clock. -/
theorem clockMonotone_cons (last : Nat) (a : Action) (rest : List Action)
    (h : clockMonotone last (a :: rest) = true) :
    last ≤ a.clock last ∧ (∀ r now, a = .listen r now → 0 < now) ∧
    clockMonotone (a.clock last) rest = true := by
  cases a with
  | register address =>
    refine ⟨Nat.le_refl _, ?_, h⟩
    intro r now e
    cases e
  | listen r now =>
    simp only [clockMonotone, Bool.and_eq_true, decide_eq_true_eq] at h
    refine ⟨h.1.1, ?_, h.2⟩
    intro r2 now2 e
    cases e
    exact h.1.2
  | markInactive client =>
    refine ⟨Nat.le_refl _, ?_, h⟩
    intro r now e
    cases e

/-- A run with a monotone clock keeps the invariant. -/
theorem Sys.run_Inv (net : Net) (acts : List Action) :
    ∀ (σ σ1 : Sys), σ.Inv → clockMonotone σ.clock acts = true →
      Sys.run net σ acts = some σ1 → σ1.Inv := by
  induction acts with
  | nil =>
    intro σ σ1 hinv _ h
    simp only [Sys.run] at h
    cases h
    exact hinv
  | cons a rest ih =>
    intro σ σ1 hinv hmono h
    obtain ⟨hclk, hpos, hrest⟩ := clockMonotone_cons σ.clock a rest hmono
    simp only [Sys.run] at h
    cases hstep : σ.step net a with
    | none => simp [hstep] at h
    | some σ2 =>
      simp only [hstep] at h
      have hinv2 := Sys.step_Inv net σ σ2 a hinv hclk hpos hstep
      have hc2 := (Sys.step_some net σ σ2 a hstep).2.1
      rw [← hc2] at hrest
      exact ih σ2 σ1 hinv2 hrest h

/-- C11: in every state reached from the empty registry by `RegisterClient` calls,
listener steps and `setActive(false)` calls of `pingClient`, with clock readings that
never decrease and are not the zero time, every active entry has a set `LastSeen`,
not earlier than the most recent step that made the entry active. -/
theorem active_lastSeen_after_activation (net : Net) (acts : List Action) (σ : Sys)
    (k : String) (c : Client)
    (hclock : clockMonotone 0 acts = true)
    (hrun : Sys.run net Sys.init acts = some σ)
    (hpeer : σ.server.peer k = some c) (hactive : c.Active = true) :
    c.LastSeen ≠ 0 ∧ ∃ t, σ.activatedAt k = some t ∧ t ≤ c.LastSeen := by
  have hinv := Sys.run_Inv net acts Sys.init σ Sys.init_Inv hclock hrun
  obtain ⟨hpos, t, ht, hle⟩ := hinv.2.2.2 k c hpeer hactive
  exact ⟨by omega, t, ht, hle⟩

/-- Witness of C11: after the two registrations of `main`, the first client answers at
time `100`. -/
theorem active_lastSeen_after_activation_witness :
    ∃ σ c, Sys.run demoNet Sys.init unsolicitedRun = some σ ∧
      σ.server.peer "127.0.0.1:8054" = some c ∧ c.Active = true ∧
      c.LastSeen ≠ 0 ∧ ∃ t, σ.activatedAt "127.0.0.1:8054" = some t ∧ t ≤ c.LastSeen := by
  refine ⟨_, { Address := loopback 8054, LastSeen := 100, Active := true }, rfl, by decide, rfl, ?_⟩
  exact active_lastSeen_after_activation demoNet unsolicitedRun _ "127.0.0.1:8054" _
    (by decide) rfl (by decide) rfl

/-! ## Cycles without registration -/

/-- The server of a run of the system is the run of its server. -/
theorem Sys.run_server (net : Net) (acts : List Action) :
    ∀ (σ σ1 : Sys), Sys.run net σ acts = some σ1 →
      σ.server.acts net acts = some σ1.server := by
  induction acts with
  | nil =>
    intro σ σ1 h
    simp only [Sys.run] at h
    cases h
    rfl
  | cons a rest ih =>
    intro σ σ1 h
    simp only [Sys.run] at h
    cases hstep : σ.step net a with
    | none => simp [hstep] at h
    | some σ2 =>
      simp only [hstep] at h
      have hact := (Sys.step_some net σ σ2 a hstep).1
      simp only [Server.acts, hact]
      exact ih σ2 σ1 h

/-- A read that is an `ECHO-RESPONSE` from `key`. -/
theorem isReplyFrom_iff (net : Net) (key : String) (r : ReadResult) :
    r.isReplyFrom net key = true ↔
      ∃ addr, r = .datagram "ECHO-RESPONSE" addr ∧ net.addrString addr = key := by
  cases r with
  | error err => simp [ReadResult.isReplyFrom]
  | datagram payload addr =>
    simp only [ReadResult.isReplyFrom, Bool.and_eq_true, decide_eq_true_eq, readMessage_eq_tag]
    constructor
    · rintro ⟨hp, ha⟩
      exact ⟨addr, by rw [hp], ha⟩
    · rintro ⟨addr2, e, ha⟩
      cases e
      exact ⟨rfl, ha⟩

/-- An action that spares the peer of `key` keeps its pointer and its object. -/
theorem act_spares (net : Net) (s s1 : Server) (hwf : s.WF) (key : String) (p : Nat)
    (a : Action) (hk : mapGet s.clients key = some p)
    (hspare : a.sparesPeer net key p = true) (h : s.act net a = some s1) :
    s1.WF ∧ mapGet s1.clients key = some p ∧ s1.deref p = s.deref p := by
  cases a with
  | register address => simp [Action.sparesPeer] at hspare
  | listen r now =>
    simp only [Server.act] at h
    obtain ⟨s2, h2, hwf2, hmap, _, hsil⟩ := listenStep_frame net s hwf r now
    rw [h2] at h
    have e := Option.some.inj h
    subst e
    refine ⟨hwf2, hmap key p hk, hsil key p hk ?_⟩
    intro addr hr hfrom
    have hrep : r.isReplyFrom net key = true := (isReplyFrom_iff net key r).2 ⟨addr, hr, hfrom⟩
    simp [Action.sparesPeer, hrep] at hspare
  | markInactive q =>
    simp only [Server.act] at h
    obtain ⟨c, _, hlt, e⟩ := setActive_some s s1 q false 0 h
    subst e
    have hne : p ≠ q := by
      intro e
      simp [Action.sparesPeer, e] at hspare
    refine ⟨WF_store s hwf q _, hk, ?_⟩
    rw [deref_store s q _ hlt p, if_neg hne]

/-- A sequence of actions that spare the peer of `key` keeps its pointer and its object. -/
theorem acts_spare (net : Net) (key : String) (p : Nat) (acts : List Action) :
    ∀ (s s1 : Server), s.WF → mapGet s.clients key = some p →
      (∀ a ∈ acts, a.sparesPeer net key p = true) → s.acts net acts = some s1 →
      s1.WF ∧ mapGet s1.clients key = some p ∧ s1.deref p = s.deref p := by
  induction acts with
  | nil =>
    intro s s1 hwf hk _ h
    simp only [Server.acts] at h
    cases h
    exact ⟨hwf, hk, rfl⟩
  | cons a rest ih =>
    intro s s1 hwf hk hall h
    simp only [Server.acts] at h
    cases hact : s.act net a with
    | none => simp [hact] at h
    | some s2 =>
      simp only [hact] at h
      obtain ⟨hwf2, hk2, hd2⟩ :=
        act_spares net s s2 hwf key p a hk (hall a (List.mem_cons_self _ _)) hact
      obtain ⟨hwf1, hk1, hd1⟩ :=
        ih s2 s1 hwf2 hk2 (fun b hb => hall b (List.mem_cons_of_mem _ hb)) h
      exact ⟨hwf1, hk1, hd1.trans hd2⟩

/-- C13, as stated, fails: after the two registrations of `main` and without any
`pingClient` (no probe is sent), one listener step on an `ECHO-RESPONSE` from the first
client takes its entry from as registered to active with `LastSeen = 100`. -/
theorem unsolicited_reply_activates_registered_peer :
    (∀ a ∈ unsolicitedRun, ∀ q, a ≠ Action.markInactive q) ∧
    Server.acts demoNet NewServer
      [Action.register "127.0.0.1:8054", Action.register "127.0.0.1:8055"] = some demoServer ∧
    demoServer.peer "127.0.0.1:8054"
      = some { Address := loopback 8054, LastSeen := 0, Active := false } ∧
    Server.act demoNet demoServer
      (Action.listen (ReadResult.datagram "ECHO-RESPONSE" (loopback 8054)) 100)
      = some liveServer ∧
    liveServer.peer "127.0.0.1:8054"
      = some { Address := loopback 8054, LastSeen := 100, Active := true } := by
  refine ⟨?_, by decide, by decide, by decide, by decide⟩
  intro a ha q
  simp only [unsolicitedRun, List.mem_cons, List.mem_singleton, List.not_mem_nil, or_false] at ha
  rcases ha with e | e | e <;> subst e <;> simp

/-- C13, amended: the entry of a registered peer (inactive, `LastSeen` unset) is exactly
as registered after any sequence of listener steps that read no `ECHO-RESPONSE` from
the peer's key, and of `setActive(false)` calls of the `pingClient` of other objects. -/
theorem registered_peer_stays_as_registered (net : Net) (s s1 : Server) (hwf : s.WF)
    (key : String) (p : Nat) (c : Client) (acts : List Action)
    (hk : mapGet s.clients key = some p) (hc : s.deref p = some c)
    (hreg : c.Active = false ∧ c.LastSeen = 0)
    (hspare : ∀ a ∈ acts, a.sparesPeer net key p = true)
    (hrun : s.acts net acts = some s1) :
    s1.peer key = some c ∧ c.Active = false ∧ c.LastSeen = 0 := by
  obtain ⟨_, hk1, hd1⟩ := acts_spare net key p acts s s1 hwf hk hspare hrun
  refine ⟨?_, hreg.1, hreg.2⟩
  simp only [Server.peer, hk1]
  rw [hd1, hc]

/-- Witness of the amended C13: the first client of `demoServer` during `bystanderRun`. -/
theorem registered_peer_stays_as_registered_witness :
    ∃ s1, Server.acts demoNet demoServer bystanderRun = some s1 ∧
      s1.peer "127.0.0.1:8054"
        = some { Address := loopback 8054, LastSeen := 0, Active := false } ∧
      s1.peer "127.0.0.1:8055"
        = some { Address := loopback 8055, LastSeen := 7, Active := false } := by
  refine ⟨_, rfl, ?_, by decide⟩
  exact (registered_peer_stays_as_registered demoNet demoServer _ demoServer_WF
    "127.0.0.1:8054" 0 { Address := loopback 8054, LastSeen := 0, Active := false }
    bystanderRun (by decide) (by decide) (by decide) (by decide) rfl).1

/-! ## `LastSeen` over a cycle -/

/-- An action other than a registration, at a clock reading after `last`: the object
of `key` keeps its pointer, its `LastSeen` does not decrease and stays within the
clock, and it increases when the action is an `ECHO-RESPONSE` from `key`. -/
theorem act_lastSeen (net : Net) (s s1 : Server) (hwf : s.WF) (key : String) (p : Nat)
    (c : Client) (a : Action) (last : Nat)
    (hk : mapGet s.clients key = some p) (hc : s.deref p = some c)
    (hle : c.LastSeen ≤ last) (hnr : a.isRegister = false)
    (hclk : ∀ r now, a = .listen r now → last < now)
    (h : s.act net a = some s1) :
    ∃ c1, s1.WF ∧ mapGet s1.clients key = some p ∧ s1.deref p = some c1 ∧
      c.LastSeen ≤ c1.LastSeen ∧ c1.LastSeen ≤ a.clock last ∧
      (a.isReplyFrom net key = true → c.LastSeen < c1.LastSeen) := by
  have hclock : last ≤ a.clock last := by
    cases a with
    | register address => exact Nat.le_refl _
    | listen r now => exact Nat.le_of_lt (hclk r now rfl)
    | markInactive q => exact Nat.le_refl _
  by_cases hsp : a.sparesPeer net key p = true
  · obtain ⟨hwf1, hk1, hd1⟩ := act_spares net s s1 hwf key p a hk hsp h
    refine ⟨c, hwf1, hk1, hd1.trans hc, Nat.le_refl _, by omega, ?_⟩
    intro hrep
    cases a with
    | register address => simp [Action.isReplyFrom] at hrep
    | listen r now =>
      simp only [Action.isReplyFrom] at hrep
      simp [Action.sparesPeer, hrep] at hsp
    | markInactive q => simp [Action.isReplyFrom] at hrep
  · cases a with
    | register address => simp [Action.isRegister] at hnr
    | listen r now =>
      have hrep : r.isReplyFrom net key = true := by
        cases hr : r.isReplyFrom net key with
        | true => rfl
        | false => simp [Action.sparesPeer, hr] at hsp
      obtain ⟨addr, e, hfrom⟩ := (isReplyFrom_iff net key r).1 hrep
      subst e
      subst hfrom
      obtain ⟨c0, hc0, hstep⟩ := listenStep_known net s hwf addr now p hk
      simp only [Server.act] at h
      rw [hstep] at h
      have e := Option.some.inj h
      subst e
      have hcc : c0 = c := by
        rw [hc] at hc0
        exact (Option.some.inj hc0).symm
      subst hcc
      have hlt : p < s.heap.length := hwf.1 _ p hk
      have hnow := hclk _ now rfl
      refine ⟨c0.setActive true now, WF_store s hwf p _, hk, ?_, ?_, ?_, ?_⟩
      · rw [deref_store s p _ hlt p, if_pos rfl]
      · show c0.LastSeen ≤ now
        omega
      · exact Nat.le_refl _
      · intro _
        show c0.LastSeen < now
        omega
    | markInactive q =>
      have hqp : q = p := by
        by_contra hne
        simp [Action.sparesPeer, hne] at hsp
      subst hqp
      simp only [Server.act] at h
      obtain ⟨c0, hc0, hlt, e⟩ := setActive_some s s1 q false 0 h
      subst e
      have hcc : c0 = c := by
        rw [hc] at hc0
        exact (Option.some.inj hc0).symm
      subst hcc
      refine ⟨c0.setActive false 0, WF_store s hwf q _, hk, ?_, Nat.le_refl _, ?_, ?_⟩
      · rw [deref_store s q _ hlt q, if_pos rfl]
      · show c0.LastSeen ≤ last
        exact hle
      · intro hrep
        simp [Action.isReplyFrom] at hrep

/-- The first action of a run with a strictly increasing clock. -/
theorem clockStrict_cons (last : Nat) (a : Action) (rest : List Action)
    (h : clockStrict last (a :: rest) = true) :
    (∀ r now, a = .listen r now → last < now) ∧ clockStrict (a.clock last) rest = true := by
  cases a with
  | register address =>
    refine ⟨?_, h⟩
    intro r now e
    cases e
  | listen r now =>
    simp only [clockStrict, Bool.and_eq_true, decide_eq_true_eq] at h
    refine ⟨?_, h.2⟩
    intro r2 now2 e
    cases e
    exact h.1
  | markInactive client =>
    refine ⟨?_, h⟩
    intro r now e
    cases e

/-- Over a sequence of actions without registration and with a strictly increasing
clock, the `LastSeen` of the object of `key` does not decrease, and it increases when
the sequence has an `ECHO-RESPONSE` from `key`. -/
theorem acts_lastSeen (net : Net) (key : String) (p : Nat) (acts : List Action) :
    ∀ (s s1 : Server) (c : Client) (last : Nat), s.WF →
      mapGet s.clients key = some p → s.deref p = some c → c.LastSeen ≤ last →
      (∀ a ∈ acts, a.isRegister = false) → clockStrict last acts = true →
      s.acts net acts = some s1 →
      ∃ c1, mapGet s1.clients key = some p ∧ s1.deref p = some c1 ∧
        c.LastSeen ≤ c1.LastSeen ∧
        ((∃ a ∈ acts, a.isReplyFrom net key = true) → c.LastSeen < c1.LastSeen) := by
  induction acts with
  | nil =>
    intro s s1 c last _ hk hc _ _ _ h
    simp only [Server.acts] at h
    cases h
    refine ⟨c, hk, hc, Nat.le_refl _, ?_⟩
    rintro ⟨a, ha, _⟩
    cases ha
  | cons a rest ih =>
    intro s s1 c last hwf hk hc hle hnr hstrict h
    obtain ⟨hclk, hrest⟩ := clockStrict_cons last a rest hstrict
    simp only [Server.acts] at h
    cases hact : s.act net a with
    | none => simp [hact] at h
    | some s2 =>
      simp only [hact] at h
      obtain ⟨c2, hwf2, hk2, hc2, hle2, hclock2, hrep2⟩ :=
        act_lastSeen net s s2 hwf key p c a last hk hc hle
          (hnr a (List.mem_cons_self _ _)) hclk hact
      obtain ⟨c1, hk1, hc1, hle1, hrep1⟩ :=
        ih s2 s1 c2 (a.clock last) hwf2 hk2 hc2 hclock2
          (fun b hb => hnr b (List.mem_cons_of_mem _ hb)) hrest h
      refine ⟨c1, hk1, hc1, by omega, ?_⟩
      rintro ⟨b, hb, hrep⟩
      rcases List.mem_cons.1 hb with e | hmem
      · subst e
        have := hrep2 hrep
        omega
      · have := hrep1 ⟨b, hmem, hrep⟩
        omega

/-- A `RegisterClient` with another string keeps the pointer and the object of `key`. -/
theorem act_register_other (net : Net) (s s1 : Server) (hwf : s.WF) (key : String) (p : Nat)
    (address : String) (hk : mapGet s.clients key = some p) (hne : address ≠ key)
    (h : s.act net (Action.register address) = some s1) :
    s1.WF ∧ mapGet s1.clients key = some p ∧ s1.deref p = s.deref p := by
  simp only [Server.act] at h
  cases hres : net.ResolveUDPAddr address with
  | error err =>
    rw [RegisterClient_error net s address err hres] at h
    cases h
    exact ⟨hwf, hk, rfl⟩
  | ok udpAddr =>
    rw [RegisterClient_ok net s address udpAddr hres] at h
    cases h
    refine ⟨WF_insert s hwf address _, ?_, deref_insert s address _ p (hwf.1 key p hk)⟩
    show mapGet (mapSet s.clients address s.heap.length) key = some p
    rw [mapGet_mapSet_ne _ _ _ _ (fun e => hne e.symm)]
    exact hk

/-- An action other than a `RegisterClient` with `key`, at a clock reading after
`last`: the object of `key` keeps its pointer, its `LastSeen` does not decrease and
stays within the clock, and it increases when the action is an `ECHO-RESPONSE` from
`key`. -/
theorem act_lastSeen_general (net : Net) (s s1 : Server) (hwf : s.WF) (key : String)
    (p : Nat) (c : Client) (a : Action) (last : Nat)
    (hk : mapGet s.clients key = some p) (hc : s.deref p = some c)
    (hle : c.LastSeen ≤ last) (hnr : a.reregisters key = false)
    (hclk : ∀ r now, a = .listen r now → last < now)
    (h : s.act net a = some s1) :
    ∃ c1, s1.WF ∧ mapGet s1.clients key = some p ∧ s1.deref p = some c1 ∧
      c.LastSeen ≤ c1.LastSeen ∧ c1.LastSeen ≤ a.clock last ∧
      (a.isReplyFrom net key = true → c.LastSeen < c1.LastSeen) := by
  cases a with
  | register address =>
    have hne : address ≠ key := by
      intro e
      simp [Action.reregisters, e] at hnr
    obtain ⟨hwf1, hk1, hd1⟩ := act_register_other net s s1 hwf key p address hk hne h
    refine ⟨c, hwf1, hk1, hd1.trans hc, Nat.le_refl _, hle, ?_⟩
    intro hrep
    simp [Action.isReplyFrom] at hrep
  | listen r now =>
    exact act_lastSeen net s s1 hwf key p c (Action.listen r now) last hk hc hle rfl hclk h
  | markInactive q =>
    exact act_lastSeen net s s1 hwf key p c (Action.markInactive q) last hk hc hle rfl hclk h

/-- Over a sequence of actions without a `RegisterClient` with `key` and with a
strictly increasing clock, the `LastSeen` of the object of `key` does not decrease, and
it increases when the sequence has an `ECHO-RESPONSE` from `key`. -/
theorem acts_lastSeen_general (net : Net) (key : String) (p : Nat) (acts : List Action) :
    ∀ (s s1 : Server) (c : Client) (last : Nat), s.WF →
      mapGet s.clients key = some p → s.deref p = some c → c.LastSeen ≤ last →
      (∀ a ∈ acts, a.reregisters key = false) → clockStrict last acts = true →
      s.acts net acts = some s1 →
      ∃ c1, mapGet s1.clients key = some p ∧ s1.deref p = some c1 ∧
        c.LastSeen ≤ c1.LastSeen ∧
        ((∃ a ∈ acts, a.isReplyFrom net key = true) → c.LastSeen < c1.LastSeen) := by
  induction acts with
  | nil =>
    intro s s1 c last _ hk hc _ _ _ h
    simp only [Server.acts] at h
    cases h
    refine ⟨c, hk, hc, Nat.le_refl _, ?_⟩
    rintro ⟨a, ha, _⟩
    cases ha
  | cons a rest ih =>
    intro s s1 c last hwf hk hc hle hnr hstrict h
    obtain ⟨hclk, hrest⟩ := clockStrict_cons last a rest hstrict
    simp only [Server.acts] at h
    cases hact : s.act net a with
    | none => simp [hact] at h
    | some s2 =>
      simp only [hact] at h
      obtain ⟨c2, hwf2, hk2, hc2, hle2, hclock2, hrep2⟩ :=
        act_lastSeen_general net s s2 hwf key p c a last hk hc hle
          (hnr a (List.mem_cons_self _ _)) hclk hact
      obtain ⟨c1, hk1, hc1, hle1, hrep1⟩ :=
        ih s2 s1 c2 (a.clock last) hwf2 hk2 hc2 hclock2
          (fun b hb => hnr b (List.mem_cons_of_mem _ hb)) hrest h
      refine ⟨c1, hk1, hc1, by omega, ?_⟩
      rintro ⟨b, hb, hrep⟩
      rcases List.mem_cons.1 hb with e | hmem
      · subst e
        have := hrep2 hrep
        omega
      · have := hrep1 ⟨b, hmem, hrep⟩
        omega

/-- C12, as stated, fails: after `unsolicitedRun` the first client has `LastSeen = 100`;
in the cycle `reregisterCycle` the clock strictly increases and its `ECHO-RESPONSE` is
processed at time `130`, but the `RegisterClient` that follows replaces the entry, and
after the cycle `LastSeen` is the zero time. -/
theorem lastSeen_cleared_by_reregistration :
    clockMonotone 0 unsolicitedRun = true ∧
    ∃ σ σ1, Sys.run demoNet Sys.init unsolicitedRun = some σ ∧
      σ.server.peer "127.0.0.1:8054"
        = some { Address := loopback 8054, LastSeen := 100, Active := true } ∧
      clockStrict σ.clock reregisterCycle = true ∧
      (∃ a ∈ reregisterCycle, a.isReplyFrom demoNet "127.0.0.1:8054" = true) ∧
      Sys.run demoNet σ reregisterCycle = some σ1 ∧
      σ1.server.peer "127.0.0.1:8054"
        = some { Address := loopback 8054, LastSeen := 0, Active := false } := by
  refine ⟨by decide, _, _, rfl, by decide, by decide, by decide, rfl, by decide⟩

/-- C12, amended: in a state reached with a monotone clock, a cycle of listener steps,
`setActive(false)` calls and `RegisterClient` calls with other strings than the key of
the peer, with a clock that strictly increases at every listener step, in which an
`ECHO-RESPONSE` from the peer is processed, leaves the peer with a `LastSeen` strictly
greater than before the cycle. -/
theorem lastSeen_strictly_increases (net : Net) (before cycle : List Action) (σ σ1 : Sys)
    (key : String) (c : Client)
    (hclock : clockMonotone 0 before = true)
    (hreach : Sys.run net Sys.init before = some σ)
    (hpeer : σ.server.peer key = some c)
    (hcycle : ∀ a ∈ cycle, a.reregisters key = false)
    (hstrict : clockStrict σ.clock cycle = true)
    (hreply : ∃ a ∈ cycle, a.isReplyFrom net key = true)
    (hrun : Sys.run net σ cycle = some σ1) :
    ∃ c1, σ1.server.peer key = some c1 ∧ c.LastSeen < c1.LastSeen := by
  obtain ⟨hwf, _, hobj, _⟩ := Sys.run_Inv net before Sys.init σ Sys.init_Inv hclock hreach
  obtain ⟨p, hk, hc⟩ := peer_deref σ.server key c hpeer
  have hle := hobj p c hc
  have hacts := Sys.run_server net cycle σ σ1 hrun
  obtain ⟨c1, hk1, hc1, _, hlt⟩ :=
    acts_lastSeen_general net key p cycle σ.server σ1.server c σ.clock hwf hk hc hle hcycle
      hstrict hacts
  refine ⟨c1, ?_, hlt hreply⟩
  simp only [Server.peer, hk1]
  exact hc1

/-- Witness of the amended C12: after `unsolicitedRun` (`LastSeen = 100`), the cycle
`busyCycle`, which registers `localhost:8054`, leaves the first client with a later
`LastSeen`. -/
theorem lastSeen_strictly_increases_witness :
    ∃ σ σ1 c1, Sys.run demoNet Sys.init unsolicitedRun = some σ ∧
      Sys.run demoNet σ busyCycle = some σ1 ∧
      σ1.server.peer "127.0.0.1:8054" = some c1 ∧ 100 < c1.LastSeen := by
  obtain ⟨c1, h1, h2⟩ :=
    lastSeen_strictly_increases demoNet unsolicitedRun busyCycle _ _ "127.0.0.1:8054"
      { Address := loopback 8054, LastSeen := 100, Active := true }
      (by decide) rfl (by decide) (by decide) (by decide) (by decide) rfl
  exact ⟨_, _, c1, rfl, rfl, h1, h2⟩

/-! ## `pingClient` as a sequence of actions -/

theorem acts_append (net : Net) (l1 l2 : List Action) :
    ∀ (s : Server), s.acts net (l1 ++ l2) =
      match s.acts net l1 with
      | none => none
      | some s1 => s1.acts net l2 := by
  induction l1 with
  | nil =>
    intro s
    rfl
  | cons a rest ih =>
    intro s
    simp only [List.cons_append, Server.acts]
    cases s.act net a with
    | none => rfl
    | some s2 => exact ih s2

/-- The listener loop is the sequence of its iterations. -/
theorem acts_listens (net : Net) (rs : List (ReadResult × Nat)) :
    ∀ (s : Server), s.acts net (rs.map (fun e => Action.listen e.1 e.2)) =
      listenForResponses net s rs := by
  induction rs with
  | nil =>
    intro s
    rfl
  | cons e rest ih =>
    intro s
    obtain ⟨r, now⟩ := e
    simp only [List.map_cons, Server.acts, Server.act, listenForResponses]
    cases listenStep net s r now with
    | none => rfl
    | some s2 => exact ih s2

/-- The server after `pingClient` is the server after the listener iterations of its
waits and its `setActive(false)`. -/
theorem pingClient_server (net : Net) (env : PingEnv) (s : Server) (client : Nat)
    (st : PingState) (h : pingClient net env s client = some st) :
    s.acts net (pingActions env client) = some st.server := by
  have hmark : ∀ (s0 : Server) (c0 : Client), s0.deref client = some c0 →
      s0.acts net [Action.markInactive client] =
        some { clients := s0.clients, heap := s0.heap.set client (c0.setActive false 0) } := by
    intro s0 c0 h0
    simp [Server.acts, Server.act, Server.setActive, h0]
  unfold pingClient at h
  rw [attempts_eq] at h
  cases hd : s.deref client with
  | none => simp [pingAttempts, hd] at h
  | some c =>
    cases hf1 : env.sendFails 1 with
    | true =>
      rw [pingAttempts_send_fails net env client 1 _ _ c hd hf1] at h
      cases h
      simp only [pingActions, hf1, if_true]
      exact hmark s c hd
    | false =>
      cases hl1 : listenForResponses net s (env.window 1) with
      | none => simp [pingAttempts, hd, hf1, hl1] at h
      | some s1 =>
        rw [pingAttempts_retry net env client 1 _ _ c s1 hd hf1 rfl hl1 (by decide)] at h
        cases hd1 : s1.deref client with
        | none => simp [pingAttempts, hd1] at h
        | some c1 =>
          cases hf2 : env.sendFails 2 with
          | true =>
            rw [pingAttempts_send_fails net env client 2 _ _ c1 hd1 hf2] at h
            cases h
            simp only [pingActions, hf1, hf2, acts_append, acts_listens, hl1, if_true,
              Bool.false_eq_true, if_false]
            exact hmark s1 c1 hd1
          | false =>
            cases hl2 : listenForResponses net s1 (env.window 2) with
            | none => simp [pingAttempts, hd1, hf2, hl2] at h
            | some s2 =>
              rw [pingAttempts_retry net env client 2 _ _ c1 s2 hd1 hf2 rfl hl2
                (by decide)] at h
              cases hd2 : s2.deref client with
              | none => simp [pingAttempts, hd2] at h
              | some c2 =>
                cases hf3 : env.sendFails 3 with
                | true =>
                  rw [pingAttempts_send_fails net env client 3 _ _ c2 hd2 hf3] at h
                  cases h
                  simp only [pingActions, hf1, hf2, hf3, acts_append, acts_listens, hl1, hl2,
                    if_true, Bool.false_eq_true, if_false]
                  exact hmark s2 c2 hd2
                | false =>
                  cases hl3 : listenForResponses net s2 (env.window 3) with
                  | none => simp [pingAttempts, hd2, hf3, hl3] at h
                  | some s3 =>
                    cases hd3 : s3.deref client with
                    | none =>
                      simp [pingAttempts, hd2, hf3, hl3, Server.setActive, hd3] at h
                    | some c3 =>
                      rw [pingAttempts_last net env client _ _ c2 c3 s3 hd2 hf3 rfl hl3
                        hd3] at h
                      simp only [pingAttempts] at h
                      cases h
                      simp only [pingActions, hf1, hf2, hf3, acts_append, acts_listens, hl1,
                        hl2, hl3, Bool.false_eq_true, if_false]
                      exact hmark s3 c3 hd3

/-! ## `received` is never written -/

/-- C19: when no send fails, every attempt of `pingClient` ends by the timeout,
whatever the listener reads during the waits: three probes are sent, the full timeout
is spent three times, the branch of `received` is never taken, and `setActive(false)`
follows the third timeout. -/
theorem pingClient_always_times_out (net : Net) (env : PingEnv) (s : Server) (hwf : s.WF)
    (client : Nat) (c : Client) (hc : s.deref client = some c)
    (hsend : ∀ a, 1 ≤ a → a ≤ 3 → env.sendFails a = false) :
    ∃ st, pingClient net env s client = some st ∧
      st.trace = [Event.write "ECHO-REQUEST" c.Address, Event.timeout attemptTimeout,
                  Event.write "ECHO-REQUEST" c.Address, Event.timeout attemptTimeout,
                  Event.write "ECHO-REQUEST" c.Address, Event.timeout attemptTimeout,
                  Event.setActive client false] ∧
      sendCalls st.trace = 3 ∧ waited st.trace = 3 * attemptTimeout ∧
      Event.received ∉ st.trace ∧ st.received = [] := by
  obtain ⟨s1, h1, hwf1, _, haddr1, _⟩ := listenForResponses_frame net (env.window 1) s hwf
  obtain ⟨s2, h2, hwf2, _, haddr2, _⟩ := listenForResponses_frame net (env.window 2) s1 hwf1
  obtain ⟨s3, h3, _, _, haddr3, _⟩ := listenForResponses_frame net (env.window 3) s2 hwf2
  obtain ⟨c1, hd1, ha1⟩ := haddr1 client c hc
  obtain ⟨c2, hd2, ha2⟩ := haddr2 client c1 hd1
  obtain ⟨c3, hd3, _⟩ := haddr3 client c2 hd2
  have hrun : pingClient net env s client =
      some { server := { clients := s3.clients,
                         heap := s3.heap.set client (c3.setActive false 0) },
             received := [],
             trace := [Event.write "ECHO-REQUEST" c.Address, Event.timeout attemptTimeout,
                  Event.write "ECHO-REQUEST" c.Address, Event.timeout attemptTimeout,
                  Event.write "ECHO-REQUEST" c.Address, Event.timeout attemptTimeout,
                  Event.setActive client false] } := by
    unfold pingClient
    rw [attempts_eq]
    rw [pingAttempts_retry net env client 1 _ _ c s1 hc (hsend 1 (by decide) (by decide)) rfl h1
      (by decide)]
    rw [pingAttempts_retry net env client 2 _ _ c1 s2 hd1 (hsend 2 (by decide) (by decide)) rfl
      h2 (by decide)]
    rw [pingAttempts_last net env client _ _ c2 c3 s3 hd2 (hsend 3 (by decide) (by decide)) rfl
      h3 hd3]
    simp [pingAttempts, ha1, ha2]
  refine ⟨_, hrun, rfl, rfl, ?_, ?_, rfl⟩
  · simp only [waited]
    omega
  · simp

/-- Witness of C19: the first client of `demoServer` answers during every wait. -/
theorem pingClient_always_times_out_witness :
    ∃ st, pingClient demoNet replyEnv demoServer 0 = some st ∧
      sendCalls st.trace = 3 ∧ waited st.trace = 3 * attemptTimeout ∧
      Event.received ∉ st.trace := by
  obtain ⟨st, hrun, _, hsends, hwait, hrec, _⟩ :=
    pingClient_always_times_out demoNet replyEnv demoServer demoServer_WF 0
      { Address := loopback 8054, LastSeen := 0, Active := false } (by decide)
      (by intro a _ _; rfl)
  exact ⟨st, hrun, hsends, hwait, hrec⟩

/-! ## The peer endpoint -/

/-- The message read equals a tag shorter than the buffer exactly when the payload does. -/
theorem readMessage_eq_short (payload tag : String) (hshort : tag.data.length < bufferSize) :
    readMessage payload = tag ↔ payload = tag := by
  constructor
  · intro h
    have h1 : payload.data.take bufferSize = tag.data := by
      have := congrArg String.data h
      simpa [readMessage] using this
    have hlen : (payload.data.take bufferSize).length = tag.data.length := by
      rw [h1]
    have hle : payload.data.length ≤ bufferSize := by
      rw [List.length_take] at hlen
      omega
    rw [List.take_of_length_le hle] at h1
    exact String.ext h1
  · intro h
    subst h
    simp only [readMessage]
    rw [List.take_of_length_le (Nat.le_of_lt hshort)]

/-- C14: for every payload, source address and flag `respond`, the endpoint writes
exactly one datagram, `ECHO-RESPONSE` to the source address, when the payload is
exactly `ECHO-REQUEST` and `respond` is set, and writes nothing otherwise; a read
error writes nothing. -/
theorem endpointStep_reflects (respond : Bool) (payload : String) (addr : UDPAddr)
    (err : String) :
    endpointStep respond (.datagram payload addr) =
      (if payload = "ECHO-REQUEST" ∧ respond = true then [("ECHO-RESPONSE", addr)] else []) ∧
    endpointStep respond (.error err) = [] := by
  refine ⟨?_, rfl⟩
  have hm : readMessage payload = "ECHO-REQUEST" ↔ payload = "ECHO-REQUEST" :=
    readMessage_eq_short payload "ECHO-REQUEST" (by decide)
  simp only [endpointStep, Bool.and_eq_true, decide_eq_true_eq, hm]

/-! ## Read errors of the listener -/

/-- C15, as stated, fails: after reads that return the error of a closed socket the
loop of the listener keeps reading (four errors, four reads), and a read after such
an error is processed as usual. -/
theorem listener_reads_on_after_closed_socket :
    listenIterations demoNet demoServer
      [(.error errClosed, 50), (.error errClosed, 50), (.error errClosed, 50),
       (.error errClosed, 50)] = 4 ∧
    listenForResponses demoNet demoServer
      [(.error errClosed, 50), (.datagram "ECHO-RESPONSE" (loopback 8054), 100)]
      = some liveServer := by
  refine ⟨by decide, by decide⟩

/-- C15, amended: every read error, whatever it is (the error of a closed socket
included), is skipped: the server is unchanged, and the loop goes on with the next
read. -/
theorem listener_skips_every_read_error (net : Net) (s : Server) (err : String) (now : Nat)
    (rs : List (ReadResult × Nat)) :
    listenStep net s (.error err) now = some s ∧
    listenForResponses net s ((.error err, now) :: rs) = listenForResponses net s rs ∧
    listenIterations net s ((.error err, now) :: rs) = listenIterations net s rs + 1 := by
  refine ⟨rfl, ?_, ?_⟩
  · simp [listenForResponses, listenStep]
  · simp [listenIterations, listenStep]

/-- On a well-formed server the loop of the listener makes every read it is offered. -/
theorem listenIterations_all (net : Net) (rs : List (ReadResult × Nat)) :
    ∀ (s : Server), s.WF → listenIterations net s rs = rs.length := by
  induction rs with
  | nil =>
    intro s _
    rfl
  | cons e rest ih =>
    intro s hwf
    obtain ⟨r, now⟩ := e
    obtain ⟨s1, h1, hwf1⟩ := listenStep_WF net s hwf r now
    simp [listenIterations, h1, ih s1 hwf1]

/-! ## The keys of the map -/

/-- `mapSet` adds no key but `k`. -/
theorem mapSet_keys (m : List (String × Nat)) (k : String) (v : Nat) (k2 : String)
    (h : k2 ∈ (mapSet m k v).map Prod.fst) : k2 = k ∨ k2 ∈ m.map Prod.fst := by
  induction m with
  | nil =>
    simp [mapSet] at h
    exact Or.inl h
  | cons e rest ih =>
    obtain ⟨k1, v1⟩ := e
    by_cases h1 : k1 = k
    · subst h1
      simp only [mapSet, if_true, List.map_cons, List.mem_cons] at h ⊢
      rcases h with h | h
      · exact Or.inl h
      · exact Or.inr (Or.inr h)
    · simp only [mapSet, if_neg h1, List.map_cons, List.mem_cons] at h ⊢
      rcases h with h | h
      · exact Or.inr (Or.inl h)
      · rcases ih h with h2 | h2
        · exact Or.inl h2
        · exact Or.inr (Or.inr h2)

/-- `mapSet` keeps the keys distinct. -/
theorem mapSet_nodup (m : List (String × Nat)) (k : String) (v : Nat)
    (h : (m.map Prod.fst).Nodup) : ((mapSet m k v).map Prod.fst).Nodup := by
  induction m with
  | nil => simp [mapSet]
  | cons e rest ih =>
    obtain ⟨k1, v1⟩ := e
    simp only [List.map_cons, List.nodup_cons] at h
    by_cases h1 : k1 = k
    · subst h1
      simp only [mapSet, if_true, List.map_cons, List.nodup_cons]
      exact h
    · simp only [mapSet, if_neg h1, List.map_cons, List.nodup_cons]
      refine ⟨?_, ih h.2⟩
      intro hmem
      rcases mapSet_keys rest k v k1 hmem with h2 | h2
      · exact h1 h2
      · exact h.1 h2

/-- With distinct keys, an element of the list is what `mapGet` returns. -/
theorem mapGet_of_mem (m : List (String × Nat)) (k : String) (p : Nat)
    (hn : (m.map Prod.fst).Nodup) (h : (k, p) ∈ m) : mapGet m k = some p := by
  induction m with
  | nil => cases h
  | cons e rest ih =>
    obtain ⟨k1, v1⟩ := e
    simp only [List.map_cons, List.nodup_cons] at hn
    rcases List.mem_cons.1 h with e | hmem
    · cases e
      simp [mapGet]
    · have hne : k1 ≠ k := by
        intro e
        subst e
        exact hn.1 (List.mem_map_of_mem Prod.fst hmem)
      simp only [mapGet, if_neg hne]
      exact ih hn.2 hmem

/-- What `mapGet` returns is an element of the list. -/
theorem mem_of_mapGet (m : List (String × Nat)) (k : String) (p : Nat)
    (h : mapGet m k = some p) : (k, p) ∈ m := by
  induction m with
  | nil => simp [mapGet] at h
  | cons e rest ih =>
    obtain ⟨k1, v1⟩ := e
    by_cases h1 : k1 = k
    · subst h1
      simp only [mapGet, if_true] at h
      cases h
      exact List.mem_cons_self _ _
    · simp only [mapGet, if_neg h1] at h
      exact List.mem_cons_of_mem _ (ih h)

theorem NewServer_UniqueKeys : NewServer.UniqueKeys := by
  simp [Server.UniqueKeys, NewServer]

theorem demoServer_UniqueKeys : demoServer.UniqueKeys := by
  unfold Server.UniqueKeys
  decide

theorem liveServer_UniqueKeys : liveServer.UniqueKeys := by
  unfold Server.UniqueKeys
  decide

/-- An action keeps the keys of the map distinct. -/
theorem act_UniqueKeys (net : Net) (s s1 : Server) (a : Action) (hu : s.UniqueKeys)
    (h : s.act net a = some s1) : s1.UniqueKeys := by
  cases a with
  | register address =>
    simp only [Server.act] at h
    cases hres : net.ResolveUDPAddr address with
    | error err =>
      rw [RegisterClient_error net s address err hres] at h
      cases h
      exact hu
    | ok udpAddr =>
      rw [RegisterClient_ok net s address udpAddr hres] at h
      cases h
      exact mapSet_nodup s.clients address _ hu
  | listen r now =>
    simp only [Server.act] at h
    cases r with
    | error err =>
      cases h
      exact hu
    | datagram payload addr =>
      by_cases hp : payload = "ECHO-RESPONSE"
      · subst hp
        cases hk : mapGet s.clients (net.addrString addr) with
        | none =>
          rw [listenStep_unknown net s addr now hk] at h
          cases h
          exact mapSet_nodup s.clients _ _ hu
        | some p =>
          have hm : readMessage "ECHO-RESPONSE" = "ECHO-RESPONSE" := rfl
          simp only [listenStep, hm, if_true, hk] at h
          obtain ⟨c, _, _, e⟩ := setActive_some s s1 p true now h
          subst e
          exact hu
      · rw [listenStep_other net s payload addr now hp] at h
        cases h
        exact hu
  | markInactive client =>
    simp only [Server.act] at h
    obtain ⟨c, _, _, e⟩ := setActive_some s s1 client false 0 h
    subst e
    exact hu

/-- A key that an action adds to the map points to an object allocated by the action. -/
theorem act_new_key (net : Net) (s s1 : Server) (a : Action) (k : String) (p : Nat)
    (h : s.act net a = some s1) (hold : mapGet s.clients k = none)
    (hnew : mapGet s1.clients k = some p) : s.heap.length ≤ p := by
  have hins : ∀ (k0 : String) (c : Client),
      s1 = { clients := mapSet s.clients k0 s.heap.length, heap := s.heap ++ [c] } →
      s.heap.length ≤ p := by
    intro k0 c e
    subst e
    by_cases hk : k = k0
    · subst hk
      have h2 : mapGet (mapSet s.clients k s.heap.length) k = some p := hnew
      rw [mapGet_mapSet_self] at h2
      have := Option.some.inj h2
      omega
    · have h2 : mapGet (mapSet s.clients k0 s.heap.length) k = some p := hnew
      rw [mapGet_mapSet_ne _ _ _ _ hk, hold] at h2
      cases h2
  have hsame : s1.clients = s.clients → s.heap.length ≤ p := by
    intro e
    rw [e, hold] at hnew
    cases hnew
  cases a with
  | register address =>
    simp only [Server.act] at h
    cases hres : net.ResolveUDPAddr address with
    | error err =>
      rw [RegisterClient_error net s address err hres] at h
      cases h
      exact hsame rfl
    | ok udpAddr =>
      rw [RegisterClient_ok net s address udpAddr hres] at h
      exact hins address _ (Option.some.inj h).symm
  | listen r now =>
    simp only [Server.act] at h
    cases r with
    | error err =>
      cases h
      exact hsame rfl
    | datagram payload addr =>
      by_cases hp : payload = "ECHO-RESPONSE"
      · subst hp
        cases hk : mapGet s.clients (net.addrString addr) with
        | none =>
          rw [listenStep_unknown net s addr now hk] at h
          exact hins _ _ (Option.some.inj h).symm
        | some q =>
          have hm : readMessage "ECHO-RESPONSE" = "ECHO-RESPONSE" := rfl
          simp only [listenStep, hm, if_true, hk] at h
          obtain ⟨c, _, _, e⟩ := setActive_some s s1 q true now h
          subst e
          exact hsame rfl
      · rw [listenStep_other net s payload addr now hp] at h
        cases h
        exact hsame rfl
  | markInactive client =>
    simp only [Server.act] at h
    obtain ⟨c, _, _, e⟩ := setActive_some s s1 client false 0 h
    subst e
    exact hsame rfl

/-! ## `PrintClientStatus` -/

/-- Without other goroutines, the loop of `PrintClientStatus` over entries whose
objects are allocated prints one line for each, in order, and returns the server. -/
theorem reportEntries_quiet (s : Server) (l : List (String × Nat))
    (hl : ∀ e ∈ l, ∃ c, s.deref e.2 = some c) :
    ∃ lines, reportEntries quietEnv l s = some (lines, s) ∧
      lines.map StatusLine.addr = l.map Prod.fst ∧
      ∀ line ∈ lines, ∃ p c, (line.addr, p) ∈ l ∧ s.deref p = some c ∧
        line.lastSeen = c.LastSeen ∧
        line.status = (if c.Active then "active" else "inactive") := by
  induction l with
  | nil =>
    refine ⟨[], rfl, rfl, ?_⟩
    intro line h
    cases h
  | cons e rest ih =>
    obtain ⟨addr, client⟩ := e
    obtain ⟨c, hc⟩ := hl (addr, client) (List.mem_cons_self _ _)
    obtain ⟨lines, hrest, haddrs, hlines⟩ :=
      ih (fun e2 h2 => hl e2 (List.mem_cons_of_mem _ h2))
    have hentry : reportEntry quietEnv s addr client =
        some ({ addr := addr, status := if c.Active then "active" else "inactive",
                lastSeen := c.LastSeen }, s) := by
      simp [reportEntry, quietEnv, Server.applyCalls, hc, Client.isActive]
    refine ⟨{ addr := addr, status := if c.Active then "active" else "inactive",
              lastSeen := c.LastSeen } :: lines,
      by simp [reportEntries, hentry, hrest], by simp [haddrs], ?_⟩
    intro line hmem
    rcases List.mem_cons.1 hmem with e | hmem2
    · subst e
      exact ⟨client, c, List.mem_cons_self _ _, hc, rfl, rfl⟩
    · obtain ⟨p, c2, hp, hc2, h1, h2⟩ := hlines line hmem2
      exact ⟨p, c2, List.mem_cons_of_mem _ hp, hc2, h1, h2⟩

/-- C16: on a well-formed registry with distinct keys and no other goroutine running,
`PrintClientStatus` returns the server unchanged and prints one line for each key, in
the order of the iteration, with the `LastSeen` of the entry and the status `active`
exactly when the entry's `Active` is true, `inactive` exactly when it is false. -/
theorem PrintClientStatus_read_only (s : Server) (hwf : s.WF) (hu : s.UniqueKeys) :
    ∃ lines, PrintClientStatus quietEnv s = some (lines, s) ∧
      lines.map StatusLine.addr = s.clients.map Prod.fst ∧
      ∀ line ∈ lines, ∃ c, s.peer line.addr = some c ∧ line.lastSeen = c.LastSeen ∧
        (line.status = "active" ↔ c.Active = true) ∧
        (line.status = "inactive" ↔ c.Active = false) := by
  have hvalid : ∀ e ∈ s.clients, ∃ c, s.deref e.2 = some c := by
    intro e he
    obtain ⟨k, p⟩ := e
    have hk := mapGet_of_mem s.clients k p hu he
    have hp := hwf.1 k p hk
    exact ⟨s.heap[p], by simp [Server.deref, hp]⟩
  obtain ⟨lines, hrun, haddrs, hlines⟩ := reportEntries_quiet s s.clients hvalid
  refine ⟨lines, hrun, haddrs, ?_⟩
  intro line hmem
  obtain ⟨p, c, hp, hc, hseen, hstatus⟩ := hlines line hmem
  have hk := mapGet_of_mem s.clients line.addr p hu hp
  refine ⟨c, by simp [Server.peer, hk, hc], hseen, ?_, ?_⟩
  · rw [hstatus]
    cases c.Active <;> decide
  · rw [hstatus]
    cases c.Active <;> decide

/-- Witness of C16: the report on `liveServer`. -/
theorem PrintClientStatus_read_only_witness :
    ∃ lines, PrintClientStatus quietEnv liveServer = some (lines, liveServer) ∧
      lines.map StatusLine.addr = ["127.0.0.1:8054", "127.0.0.1:8055"] ∧
      ∀ line ∈ lines, ∃ c, liveServer.peer line.addr = some c ∧ line.lastSeen = c.LastSeen ∧
        (line.status = "active" ↔ c.Active = true) ∧
        (line.status = "inactive" ↔ c.Active = false) :=
  PrintClientStatus_read_only liveServer liveServer_WF liveServer_UniqueKeys

/-- C17 at an interleaving: `PrintClientStatus` on `demoServer` calls `isActive()` on
the first client (inactive, `LastSeen` unset), the listener then runs
`setActive(true)` at time `100`, and the report reads `LastSeen` afterwards: the line
printed pairs `inactive` with `LastSeen = 100`, a pair the entry never had. -/
theorem PrintClientStatus_torn_read :
    demoServer.peer "127.0.0.1:8054"
      = some { Address := loopback 8054, LastSeen := 0, Active := false } ∧
    Server.applyCalls demoServer (tornEnv.between "127.0.0.1:8054") = some liveServer ∧
    liveServer.peer "127.0.0.1:8054"
      = some { Address := loopback 8054, LastSeen := 100, Active := true } ∧
    PrintClientStatus tornEnv demoServer =
      some ([{ addr := "127.0.0.1:8054", status := "inactive", lastSeen := 100 },
             { addr := "127.0.0.1:8055", status := "inactive", lastSeen := 0 }],
            liveServer) := by
  refine ⟨by decide, by decide, by decide, by decide⟩

/-! ## `pingAllClients` -/

theorem foldl_append_singleton {α β : Type} (f : α → β) (l : List α) :
    ∀ (acc : List β), l.foldl (fun r e => r ++ [f e]) acc = acc ++ l.map f := by
  induction l with
  | nil =>
    intro acc
    simp
  | cons x rest ih =>
    intro acc
    simp [ih]

/-- The clients started by `pingAllClients` are the pointers of the map, in order. -/
theorem pingAllClients_started (s : Server) :
    (pingAllClients s).2 = s.clients.map Prod.snd := by
  simp only [pingAllClients, clientList]
  rw [foldl_append_singleton Prod.snd s.clients []]
  have h := foldl_append_singleton (fun x : Nat => x) ([] ++ s.clients.map Prod.snd) []
  simp only [List.nil_append, List.map_id'] at h ⊢
  exact h

/-- C20: on a well-formed registry with distinct keys, `pingAllClients` leaves the
server unchanged and starts `pingClient` exactly once for the client of every key of
the map and for nothing else; a client that an action adds under a new key afterwards
is not among the started ones. -/
theorem pingAllClients_covers_snapshot (net : Net) (s : Server) (hwf : s.WF)
    (hu : s.UniqueKeys) :
    (pingAllClients s).1 = s ∧
    (∀ k p, mapGet s.clients k = some p → (pingAllClients s).2.count p = 1) ∧
    (∀ p ∈ (pingAllClients s).2, ∃ k, mapGet s.clients k = some p) ∧
    (∀ a s1 k p, s.act net a = some s1 → mapGet s.clients k = none →
      mapGet s1.clients k = some p → p ∉ (pingAllClients s).2) := by
  have hmem : ∀ p ∈ (pingAllClients s).2, ∃ k, mapGet s.clients k = some p := by
    intro p hp
    rw [pingAllClients_started] at hp
    obtain ⟨e, he, hep⟩ := List.mem_map.1 hp
    obtain ⟨k, q⟩ := e
    simp only at hep
    subst hep
    exact ⟨k, mapGet_of_mem s.clients k q hu he⟩
  have hnodup : (s.clients.map Prod.snd).Nodup := by
    refine List.Nodup.map_on ?_ (List.Nodup.of_map Prod.fst hu)
    intro x hx y hy hxy
    obtain ⟨k1, p1⟩ := x
    obtain ⟨k2, p2⟩ := y
    simp only at hxy
    subst hxy
    have h1 := mapGet_of_mem s.clients k1 p1 hu hx
    have h2 := mapGet_of_mem s.clients k2 p1 hu hy
    rw [hwf.2 k1 k2 p1 h1 h2]
  refine ⟨rfl, ?_, hmem, ?_⟩
  · intro k p hk
    rw [pingAllClients_started]
    exact List.count_eq_one_of_mem hnodup
      (List.mem_map.2 ⟨(k, p), mem_of_mapGet s.clients k p hk, rfl⟩)
  · intro a s1 k p hact hold hnew hp
    obtain ⟨k0, hk0⟩ := hmem p hp
    have hlt := hwf.1 k0 p hk0
    have hge := act_new_key net s s1 a k p hact hold hnew
    omega

/-- Witness of C20: the cycle on `demoServer`, and `localhost:8054` registered after
the snapshot. -/
theorem pingAllClients_covers_snapshot_witness :
    (pingAllClients demoServer).1 = demoServer ∧
    (pingAllClients demoServer).2 = [0, 1] ∧
    (pingAllClients demoServer).2.count 0 = 1 ∧
    (∀ s1 p, Server.act demoNet demoServer (Action.register "localhost:8054") = some s1 →
      mapGet s1.clients "localhost:8054" = some p → p ∉ (pingAllClients demoServer).2) := by
  obtain ⟨h1, h2, _, h4⟩ :=
    pingAllClients_covers_snapshot demoNet demoServer demoServer_WF demoServer_UniqueKeys
  exact ⟨h1, by decide, h2 "127.0.0.1:8054" 0 (by decide),
    fun s1 p hact hnew => h4 _ s1 "localhost:8054" p hact (by decide) hnew⟩

end Echo

namespace Observer

/-! ## `Deregister` and `NotifyAll` -/

/-- The calls of `NotifyAll`: one `Update(n.news)` for each observer, in order. -/
theorem NotifyAll_eq (n : NewsAgency) :
    n.NotifyAll = n.observers.map (fun o => (o, n.news)) := by
  simp only [NewsAgency.NotifyAll]
  rw [Echo.foldl_append_singleton (fun o => (o, n.news)) n.observers []]
  rfl

/-- The loop of `Deregister`, entered at the end of a part `pre` without `o`, removes
the first `o` of the rest. -/
theorem deregisterLoop_erase (o : Nat) (rest : List Nat) :
    ∀ (pre : List Nat), o ∉ pre →
      deregisterLoop (pre ++ rest) o pre.length rest = pre ++ rest.erase o := by
  induction rest with
  | nil =>
    intro pre _
    simp [deregisterLoop]
  | cons x xs ih =>
    intro pre hpre
    by_cases hx : x = o
    · subst hx
      simp [deregisterLoop]
    · have hmem : o ∉ pre ++ [x] := by
        intro h
        rcases List.mem_append.1 h with h1 | h1
        · exact hpre h1
        · simp only [List.mem_singleton] at h1
          exact hx h1.symm
      have h := ih (pre ++ [x]) hmem
      simp only [List.append_assoc, List.singleton_append, List.length_append,
        List.length_singleton] at h
      simp only [deregisterLoop, if_neg hx]
      rw [h]
      have hxo : (x == o) = false := by simpa using hx
      simp [List.erase_cons, hxo]

/-- The observers after `Deregister`: the first occurrence of `o` is removed. -/
theorem Deregister_observers (n : NewsAgency) (o : Nat) :
    (n.Deregister o).observers = n.observers.erase o := by
  have h := deregisterLoop_erase o n.observers [] (by simp)
  simpa [NewsAgency.Deregister] using h

/-- Removing the first occurrence of `o` keeps the other elements, in order. -/
theorem filter_erase_ne (o : Nat) (l : List Nat) :
    (l.erase o).filter (fun x => decide (x ≠ o)) = l.filter (fun x => decide (x ≠ o)) := by
  induction l with
  | nil => rfl
  | cons x xs ih =>
    by_cases hx : x = o
    · subst hx
      simp
    · have hxo : (x == o) = false := by simpa using hx
      rw [List.erase_cons, hxo]
      simp only [Bool.false_eq_true, if_false, List.filter_cons, ih]

/-- C18, as stated, fails: with the subscriber `1` registered twice (and `2` once),
`Deregister(1)` removes the first registration only, and the next `AddNews` still
calls `Update` on `1`. -/
theorem Deregister_keeps_later_registration :
    twiceRegistered.observers = [1, 2, 1] ∧
    (twiceRegistered.Deregister 1).observers = [2, 1] ∧
    ((twiceRegistered.Deregister 1).AddNews "Golang 2.0 announced!").2
      = [(2, "Golang 2.0 announced!"), (1, "Golang 2.0 announced!")] := by
  refine ⟨by decide, by decide, by decide⟩

/-- C18, amended: `Deregister(o)` removes the first occurrence of `o` from the list and
keeps the news; when `o` is registered at most once, no later `AddNews` calls `Update`
on `o`; every other observer is still notified, in the same relative order; and when
`o` is not registered, the agency is unchanged. -/
theorem Deregister_removes_first (n : NewsAgency) (o : Nat) (news : String) :
    (n.Deregister o).observers = n.observers.erase o ∧
    (n.Deregister o).news = n.news ∧
    (n.observers.count o ≤ 1 → ∀ call ∈ ((n.Deregister o).AddNews news).2, call.1 ≠ o) ∧
    (((n.Deregister o).AddNews news).2).filter (fun call => decide (call.1 ≠ o))
      = ((n.AddNews news).2).filter (fun call => decide (call.1 ≠ o)) ∧
    (o ∉ n.observers → n.Deregister o = n) := by
  have hobs := Deregister_observers n o
  refine ⟨hobs, rfl, ?_, ?_, ?_⟩
  · intro hcount call hcall
    simp only [NewsAgency.AddNews, NotifyAll_eq, hobs, List.mem_map] at hcall
    obtain ⟨x, hx, e⟩ := hcall
    subst e
    intro hxo
    simp only at hxo
    subst hxo
    have hpos : 0 < (n.observers.erase x).count x := List.count_pos_iff.2 hx
    rw [List.count_erase_self] at hpos
    omega
  · simp only [NewsAgency.AddNews, NotifyAll_eq, hobs, List.filter_map]
    have h := filter_erase_ne o n.observers
    have hfun : ((fun call : Nat × String => decide (call.1 ≠ o)) ∘ fun x => (x, news))
        = fun x => decide (x ≠ o) := rfl
    rw [hfun, h]
  · intro hnot
    have herase : n.observers.erase o = n.observers := List.erase_of_not_mem hnot
    cases n
    simp only [NewsAgency.Deregister] at hobs ⊢
    simp only at herase
    rw [hobs, herase]

/-- Witness of the amended C18: the agency of `main`, where Alice (`1`) and Bob (`2`)
are registered once and Alice is deregistered. -/
theorem Deregister_removes_first_witness :
    ∀ call ∈ ((((NewsAgency.empty.Register 1).Register 2).Deregister 1).AddNews
      "Golang 2.0 announced!").2, call.1 ≠ 1 :=
  (Deregister_removes_first ((NewsAgency.empty.Register 1).Register 2) 1
    "Golang 2.0 announced!").2.2.1 (by decide)

end Observer

namespace Echo

/-! ## The keys of the listener and of `RegisterClient` -/

/-- C22: a datagram, whatever its payload, changes no entry but the one whose key is
the printed source address; and when a peer is registered under the string `raw` and
an `ECHO-RESPONSE` arrives whose source prints differently, the entry of `raw` stays
as registered (inactive, `LastSeen` unset) while the entry of the printed address is
active with `LastSeen` the clock reading of the step. -/
theorem listener_key_discipline (net : Net) (s : Server) (hwf : s.WF) (raw : String)
    (udpAddr addr : UDPAddr) (payload : String) (now : Nat)
    (hres : net.ResolveUDPAddr raw = .ok udpAddr)
    (hne : net.addrString addr ≠ raw) :
    (∃ s0, listenStep net s (.datagram payload addr) now = some s0 ∧
      ∀ k, k ≠ net.addrString addr → s0.peer k = s.peer k) ∧
    ∃ s1 s2 c2, RegisterClient net s raw = .ok s1 ∧
      s1.peer raw = some { Address := udpAddr, LastSeen := 0, Active := false } ∧
      listenStep net s1 (.datagram "ECHO-RESPONSE" addr) now = some s2 ∧
      s2.peer raw = some { Address := udpAddr, LastSeen := 0, Active := false } ∧
      s2.peer (net.addrString addr) = some c2 ∧ c2.Active = true ∧ c2.LastSeen = now ∧
      ∀ k, k ≠ net.addrString addr → s2.peer k = s1.peer k := by
  have hframe : ∀ (t : Server), t.WF → ∀ (pl : String),
      ∃ t0, listenStep net t (.datagram pl addr) now = some t0 ∧
        (∀ k, k ≠ net.addrString addr → t0.peer k = t.peer k) ∧
        (pl = "ECHO-RESPONSE" →
          ∃ c2, t0.peer (net.addrString addr) = some c2 ∧ c2.Active = true ∧
            c2.LastSeen = now) := by
    intro t htwf pl
    by_cases hp : pl = "ECHO-RESPONSE"
    · subst hp
      cases hk : mapGet t.clients (net.addrString addr) with
      | none =>
        refine ⟨_, listenStep_unknown net t addr now hk, ?_, ?_⟩
        · intro k hkne
          exact peer_insert_ne t htwf _ _ k hkne
        · intro _
          exact ⟨_, peer_insert_self t _ _, rfl, rfl⟩
      | some p =>
        obtain ⟨c, _, hstep⟩ := listenStep_known net t htwf addr now p hk
        refine ⟨_, hstep, ?_, ?_⟩
        · intro k hkne
          exact peer_store_ne t htwf _ p _ hk k hkne
        · intro _
          exact ⟨_, peer_store_self t htwf _ p _ hk, rfl, rfl⟩
    · refine ⟨t, listenStep_other net t pl addr now hp, fun _ _ => rfl, ?_⟩
      intro e
      exact absurd e hp
  obtain ⟨s0, hs0, hother0, _⟩ := hframe s hwf payload
  refine ⟨⟨s0, hs0, hother0⟩, ?_⟩
  have hwf1 := WF_insert s hwf raw { Address := udpAddr, LastSeen := 0, Active := false }
  obtain ⟨s2, hs2, hother2, hactive⟩ := hframe _ hwf1 "ECHO-RESPONSE"
  obtain ⟨c2, hc2, hact, hseen⟩ := hactive rfl
  refine ⟨_, s2, c2, RegisterClient_ok net s raw udpAddr hres, peer_insert_self s raw _, hs2,
    ?_, hc2, hact, hseen, hother2⟩
  rw [hother2 raw (fun e => hne e.symm)]
  exact peer_insert_self s raw _

/-- Witness of C22: the peer is registered as `localhost:8054`, and its answers come
from `127.0.0.1:8054`. -/
theorem listener_key_discipline_witness :
    ∃ s1 s2 c2, RegisterClient demoNet NewServer "localhost:8054" = .ok s1 ∧
      listenStep demoNet s1 (.datagram "ECHO-RESPONSE" (loopback 8054)) 100 = some s2 ∧
      s2.peer "localhost:8054"
        = some { Address := loopback 8054, LastSeen := 0, Active := false } ∧
      s2.peer "127.0.0.1:8054" = some c2 ∧ c2.Active = true ∧ c2.LastSeen = 100 := by
  obtain ⟨_, s1, s2, c2, h1, _, h2, h3, h4, h5, h6, _⟩ :=
    listener_key_discipline demoNet NewServer NewServer_WF "localhost:8054" (loopback 8054)
      (loopback 8054) "ECHO-RESPONSE" 100 (by decide) (by decide)
  exact ⟨s1, s2, c2, h1, h2, h3, h4, h5, h6⟩

end Echo

namespace Chain

/-! ## `Handle` on the chain of `main` -/

/-- What `p1.Handle(lv)` does on the chain of `main`, for every request and every
fuel that allows three calls: the request is handled by the handler whose tag it is,
after the handlers before it passed it on; any other request reaches `p3`, which
calls `Handle` on its nil `nextHandler`. -/
theorem Handle_mainChain (n : Nat) (lv : String) :
    Handle mainChain (n + 3) 0 lv =
      if lv = "p1" then (["P1 handle for this"], Outcome.returned)
      else if lv = "p2" then
        (["P1 cannot handle for this", "P2 handle for this"], Outcome.returned)
      else if lv = "p3" then
        (["P1 cannot handle for this", "P2 cannot handle for this", "P3 handle for this"],
         Outcome.returned)
      else
        (["P1 cannot handle for this", "P2 cannot handle for this",
          "P3 cannot handle for this"], Outcome.nilDereference) := by
  by_cases h1 : lv = "p1"
  · subst h1
    rfl
  · by_cases h2 : lv = "p2"
    · subst h2
      rfl
    · by_cases h3 : lv = "p3"
      · subst h3
        rfl
      · simp only [if_neg h1, if_neg h2, if_neg h3]
        have e1 : Handle mainChain (n + 3) 0 lv =
            ("P1 cannot handle for this" :: (Handle mainChain (n + 2) 1 lv).1,
             (Handle mainChain (n + 2) 1 lv).2) := by
          simp [Handle, mainChain, Kind.tag, Kind.label, h1]
        have e2 : Handle mainChain (n + 2) 1 lv =
            ("P2 cannot handle for this" :: (Handle mainChain (n + 1) 2 lv).1,
             (Handle mainChain (n + 1) 2 lv).2) := by
          simp [Handle, mainChain, Kind.tag, Kind.label, h2]
        have e3 : Handle mainChain (n + 1) 2 lv =
            (["P3 cannot handle for this"], Outcome.nilDereference) := by
          simp [Handle, mainChain, Kind.tag, Kind.label, h3]
        rw [e1, e2, e3]

/-- C21 at the request `p4`: on the chain of `main`, `p1.Handle("p4")` is passed on by
`P1`, `P2` and `P3`, and `P3` calls `Handle` on its `nextHandler`, which was never
set: the call panics instead of completing, whatever the fuel. -/
theorem Handle_unknown_request_panics (n : Nat) :
    mainChain[2]? = some { kind := Kind.P3, nextHandler := none } ∧
    Handle mainChain (n + 3) 0 "p4" =
      (["P1 cannot handle for this", "P2 cannot handle for this",
        "P3 cannot handle for this"], Outcome.nilDereference) := by
  refine ⟨rfl, ?_⟩
  rw [Handle_mainChain n "p4"]
  decide

end Chain

namespace Flyweight

/-! ## `getDoll` -/

/-- C23 at two calls whose arguments differ but format to the same key: after
`getDoll("A-B", "C", "D")`, the call `getDoll("A", "B-C", "D")` returns the same
instance, whose name is `A-B` and whose material is `C`, not the arguments of the
call. -/
theorem getDoll_shares_colliding_key :
    dollKey "A-B" "C" "D" = dollKey "A" "B-C" "D" ∧
    (getDoll (getDoll NewDollFactory "A-B" "C" "D").1 "A" "B-C" "D").2
      = (getDoll NewDollFactory "A-B" "C" "D").2 ∧
    (getDoll (getDoll NewDollFactory "A-B" "C" "D").1 "A" "B-C" "D").1.heap[
        (getDoll (getDoll NewDollFactory "A-B" "C" "D").1 "A" "B-C" "D").2]?
      = some { name := "A-B", material := "C", productTime := "D" } := by
  refine ⟨by decide, by decide, by decide⟩

theorem NewDollFactory_WF : NewDollFactory.WF := by
  intro k p h
  simp [NewDollFactory, Echo.mapGet] at h

/-- What `getDoll` does in terms of the key: the factory stays well formed, the key of
the call is afterwards mapped to the returned pointer, the returned doll is one whose
fields format to the key of the call, and the earlier entries and dolls are kept. -/
theorem getDoll_by_key (fac : DollFactory) (hwf : fac.WF) (name meterial productTime : String) :
    (getDoll fac name meterial productTime).1.WF ∧
    Echo.mapGet (getDoll fac name meterial productTime).1.f
      (dollKey name meterial productTime) = some (getDoll fac name meterial productTime).2 ∧
    (∀ k p, Echo.mapGet fac.f k = some p →
      Echo.mapGet (getDoll fac name meterial productTime).1.f k = some p) ∧
    (∀ (p : Nat) (d : Doll), fac.heap[p]? = some d →
      (getDoll fac name meterial productTime).1.heap[p]? = some d) := by
  cases hk : Echo.mapGet fac.f (dollKey name meterial productTime) with
  | some v =>
    have e : getDoll fac name meterial productTime = (fac, v) := by
      simp [getDoll, hk]
    rw [e]
    exact ⟨hwf, hk, fun _ _ h => h, fun _ _ h => h⟩
  | none =>
    have e : getDoll fac name meterial productTime =
        (DollFactory.mk
          (Echo.mapSet fac.f (dollKey name meterial productTime) fac.heap.length)
          (fac.heap ++ [Doll.mk name meterial productTime]),
         fac.heap.length) := by
      simp [getDoll, hk]
    rw [e]
    have hext : ∀ (p : Nat) (d : Doll), fac.heap[p]? = some d →
        (fac.heap ++ [Doll.mk name meterial productTime])[p]? = some d := by
      intro p d h
      obtain ⟨hlt, _⟩ := List.getElem?_eq_some.1 h
      rw [List.getElem?_append_left hlt]
      exact h
    refine ⟨?_, Echo.mapGet_mapSet_self _ _ _, ?_, hext⟩
    · intro k p h
      by_cases hkk : k = dollKey name meterial productTime
      · subst hkk
        have h2 : Echo.mapGet (Echo.mapSet fac.f (dollKey name meterial productTime)
            fac.heap.length) (dollKey name meterial productTime) = some p := h
        rw [Echo.mapGet_mapSet_self] at h2
        have hp : fac.heap.length = p := Option.some.inj h2
        subst hp
        exact ⟨_, List.getElem?_concat_length _ _, rfl⟩
      · have h2 : Echo.mapGet (Echo.mapSet fac.f (dollKey name meterial productTime)
            fac.heap.length) k = some p := h
        rw [Echo.mapGet_mapSet_ne _ _ _ _ hkk] at h2
        obtain ⟨d, hd, hkey⟩ := hwf k p h2
        exact ⟨d, hext p d hd, hkey⟩
    · intro k p h
      have hkk : k ≠ dollKey name meterial productTime := by
        intro e2
        rw [e2, hk] at h
        cases h
      show Echo.mapGet (Echo.mapSet fac.f (dollKey name meterial productTime)
        fac.heap.length) k = some p
      rw [Echo.mapGet_mapSet_ne _ _ _ _ hkk]
      exact h

/-- A sequence of calls keeps the factory well formed and keeps its entries. -/
theorem getDolls_keeps (calls : List (String × String × String)) :
    ∀ (fac : DollFactory), fac.WF →
      (getDolls fac calls).WF ∧
      ∀ k p, Echo.mapGet fac.f k = some p → Echo.mapGet (getDolls fac calls).f k = some p := by
  induction calls with
  | nil =>
    intro fac hwf
    exact ⟨hwf, fun _ _ h => h⟩
  | cons call rest ih =>
    intro fac hwf
    obtain ⟨name, meterial, productTime⟩ := call
    obtain ⟨hwf1, _, hkeep1, _⟩ := getDoll_by_key fac hwf name meterial productTime
    obtain ⟨hwf2, hkeep2⟩ := ih _ hwf1
    exact ⟨hwf2, fun k p h => hkeep2 k p (hkeep1 k p h)⟩

/-- What the code shares by: two calls of a sequence on a well-formed factory, with any
calls in between, return the same instance exactly when their keys are equal. -/
theorem getDoll_same_instance_iff_same_key (fac : DollFactory) (hwf : fac.WF)
    (a1 b1 c1 a2 b2 c2 : String) (between : List (String × String × String)) :
    (getDoll (getDolls (getDoll fac a1 b1 c1).1 between) a2 b2 c2).2
        = (getDoll fac a1 b1 c1).2 ↔
      dollKey a2 b2 c2 = dollKey a1 b1 c1 := by
  obtain ⟨hwf1, hmap1, _, _⟩ := getDoll_by_key fac hwf a1 b1 c1
  obtain ⟨hwf2, hkeep2⟩ := getDolls_keeps between _ hwf1
  obtain ⟨hwf3, hmap3, hkeep3, _⟩ := getDoll_by_key _ hwf2 a2 b2 c2
  have hfirst := hkeep3 _ _ (hkeep2 _ _ hmap1)
  constructor
  · intro e
    rw [e] at hmap3
    obtain ⟨d, hd, hkey⟩ := hwf3 _ _ hmap3
    obtain ⟨d2, hd2, hkey2⟩ := hwf3 _ _ hfirst
    rw [hd] at hd2
    have hdd := Option.some.inj hd2
    subst hdd
    rw [← hkey, hkey2]
  · intro e
    rw [e] at hmap3
    rw [hfirst] at hmap3
    exact (Option.some.inj hmap3).symm

end Flyweight
